import Mathlib

/-!
Verification of the TruthDB release orchestrator.

This file shallowly embeds the core logic of the orchestrator:
the version normalizer and the two-phase preflight/apply release
protocol of `src/release_iso.rs`, the asset-readiness poller of
`src/github.rs`, the origin-remote check of `src/git.rs`, the
presentation event handler of `src/tui.rs`, and the fleet-monitor
refresh pass of `src/monitor.rs`.

External collaborators (git subprocesses, the hosting-service HTTP
client, the file system, environment variables, wall-clock time)
are modelled as explicit environment records supplying the result
of each collaborator call; the orchestrator logic itself is
translated statement by statement from the Rust source.  Where the
source performs a mutating or observable call, the embedding also
records a trace element, so that ordering and frame claims can be
stated about the list of performed operations.
-/

/-! ## Characters and strings -/

/-- Decimal digit character for a single digit value (values `10` and
above are clamped to the final branch; callers only pass `n % 10` or
`n < 10`). -/
def digitChar10 (n : Nat) : Char :=
  match n with
  | 0 => '0'
  | 1 => '1'
  | 2 => '2'
  | 3 => '3'
  | 4 => '4'
  | 5 => '5'
  | 6 => '6'
  | 7 => '7'
  | 8 => '8'
  | _ => '9'

/-- Fuel-driven decimal rendering; `fuel` bounds the number of digits
(the fuel `n + 1` used below always suffices). -/
def natDigitsAux : Nat → Nat → List Char
  | 0, _ => []
  | fuel + 1, n =>
    if n < 10 then [digitChar10 n]
    else natDigitsAux fuel (n / 10) ++ [digitChar10 (n % 10)]

/-- Standard decimal rendering of a natural number, most significant
digit first.  Embeds the `Display` rendering of Rust `u64`. -/
def natDigits (n : Nat) : List Char :=
  natDigitsAux (n + 1) n

/-- `charsPrefix n h` is true when the list `n` is an initial segment
of `h`. -/
def charsPrefix : List Char → List Char → Bool
  | [], _ => true
  | _ :: _, [] => false
  | a :: as, b :: bs => a == b && charsPrefix as bs

/-- `charsContains n h` is true when `n` occurs contiguously inside
`h`.  Embeds Rust `str::contains` with a string pattern. -/
def charsContains (n : List Char) : List Char → Bool
  | [] => n.isEmpty
  | c :: t => charsPrefix n (c :: t) || charsContains n t

/-- Substring containment on strings (Rust `str::contains`). -/
def strContains (hay needle : String) : Bool :=
  charsContains needle.data hay.data

/-! ## Version normalizer (`parse_and_normalize_version`, src/release_iso.rs)

The `semver` crate parser is embedded for SemVer 2.0: a version core
`major.minor.patch` of decimal numerals without leading zeros that fit
in a `u64`, an optional `-prerelease` of dot-separated identifiers
(ASCII alphanumerics and hyphen; purely numeric identifiers must not
have leading zeros), and an optional `+build` of dot-separated
identifiers (leading zeros permitted).  The canonical rendering joins
the validated identifiers back with the original separators, which is
what `semver::Version::to_string` produces. -/

def isDigitCh (c : Char) : Bool := c.isDigit

def isIdentCh (c : Char) : Bool := c.isAlphanum || c == '-'

/-- Numeric value of a digit string (most significant first). -/
def digitsToNat (cs : List Char) : Nat :=
  cs.foldl (fun a c => a * 10 + (c.toNat - 48)) 0

/-- Split a character list on `.` separators. -/
def splitOnDot : List Char → List (List Char)
  | [] => [[]]
  | c :: t =>
    if c = '.' then [] :: splitOnDot t
    else
      match splitOnDot t with
      | [] => [[c]]
      | h :: rest => (c :: h) :: rest

/-- A valid `major`/`minor`/`patch` numeral: nonempty digits, no
leading zero unless the numeral is `0`, value in `u64` range. -/
def validNumericCore (cs : List Char) : Bool :=
  !cs.isEmpty && cs.all isDigitCh &&
    (cs.length == 1 || cs.headD ' ' != '0') &&
    digitsToNat cs < 18446744073709551616

/-- A valid prerelease identifier: nonempty, alphanumeric/hyphen, and
if purely numeric then without a leading zero. -/
def validPreIdent (cs : List Char) : Bool :=
  !cs.isEmpty && cs.all isIdentCh &&
    (!cs.all isDigitCh || cs.length == 1 || cs.headD ' ' != '0')

/-- A valid build-metadata identifier: nonempty, alphanumeric/hyphen. -/
def validBuildIdent (cs : List Char) : Bool :=
  !cs.isEmpty && cs.all isIdentCh

structure SemVer where
  major : Nat
  minor : Nat
  patch : Nat
  pre : List (List Char)
  build : List (List Char)
deriving DecidableEq

/-- Validate the prerelease part (absent, or dot-separated valid
prerelease identifiers). -/
def parsePreIds (prePart : Option (List Char)) : Option (List (List Char)) :=
  match prePart with
  | none => some []
  | some p =>
    let ids := splitOnDot p
    if ids.all validPreIdent then some ids else none

/-- Validate the build-metadata part (absent, or dot-separated valid
build identifiers). -/
def parseBuildIds (buildPart : Option (List Char)) :
    Option (List (List Char)) :=
  match buildPart with
  | none => some []
  | some b =>
    let ids := splitOnDot b
    if ids.all validBuildIdent then some ids else none

/-- The part of the list before the first occurrence of `stop`. -/
def beforeFirst (stop : Char) (cs : List Char) : List Char :=
  (cs.span (fun c => !(c == stop))).1

/-- The part after the first occurrence of `stop`, `none` when `stop`
does not occur. -/
def afterFirst (stop : Char) (cs : List Char) : Option (List Char) :=
  match (cs.span (fun c => !(c == stop))).2 with
  | [] => none
  | _ :: t => some t

/-- Embeds `semver::Version::parse`: `none` is a parse error.  The
version core is cut at the first `+` (build metadata) and the core
before that at the first `-` (prerelease), matching the positional
grammar of the crate. -/
def parseSemVer (s : String) : Option SemVer :=
  let core1 := beforeFirst '+' s.data
  let buildPart := afterFirst '+' s.data
  let core := beforeFirst '-' core1
  let prePart := afterFirst '-' core1
  match splitOnDot core with
  | [ma, mi, pa] =>
    if validNumericCore ma && validNumericCore mi && validNumericCore pa then
      match parsePreIds prePart, parseBuildIds buildPart with
      | some pre, some build =>
        some ⟨digitsToNat ma, digitsToNat mi, digitsToNat pa, pre, build⟩
      | _, _ => none
    else none
  | _ => none

/-- Join identifier lists back with `.` separators. -/
def joinDots : List (List Char) → List Char
  | [] => []
  | [x] => x
  | x :: y :: t => x ++ '.' :: joinDots (y :: t)

/-- Embeds `semver::Version::to_string` (the canonical rendering). -/
def renderVerChars (v : SemVer) : List Char :=
  natDigits v.major ++ '.' :: natDigits v.minor ++ '.' :: natDigits v.patch ++
    (match v.pre with
     | [] => []
     | _ => '-' :: joinDots v.pre) ++
    (match v.build with
     | [] => []
     | _ => '+' :: joinDots v.build)

inductive VersionError
  | extraLeadingV (input : String)
  | invalidSemver (input : String)
deriving DecidableEq

deriving instance DecidableEq for Except

/-- True when the string begins with the character `v`
(Rust `input.starts_with('v')`). -/
def startsWithV (s : String) : Bool :=
  match s.data with
  | 'v' :: _ => true
  | _ => false

/-- Embeds `parse_and_normalize_version` (src/release_iso.rs, lines
20-46): strip one leading `v`; reject a second leading `v`; parse the
remainder as SemVer; return `(tag, version)` with `tag = "v" ++
version` and `version` the canonical rendering. -/
def parseAndNormalizeVersion (input : String) :
    Except VersionError (String × String) :=
  let withoutV : String :=
    if startsWithV input then ⟨input.data.tail⟩ else input
  if startsWithV input && startsWithV withoutV then
    .error (.extraLeadingV input)
  else
    match parseSemVer withoutV with
    | none => .error (.invalidSemver input)
    | some v =>
      let version : String := ⟨renderVerChars v⟩
      .ok ("v" ++ version, version)

/-- Claim C8: the version normalizer returns the same result for an
input with or without one leading `v`: both `"1.2.3"` and `"v1.2.3"`
normalize to `(tag = "v1.2.3", version = "1.2.3")`, while `"vv1.2.3"`
and `"not-a-version"` both fail with an invalid-version error. -/
theorem c8_version_normalizer :
    parseAndNormalizeVersion "1.2.3" = Except.ok ("v1.2.3", "1.2.3") ∧
    parseAndNormalizeVersion "v1.2.3" = Except.ok ("v1.2.3", "1.2.3") ∧
    parseAndNormalizeVersion "vv1.2.3" =
      Except.error (VersionError.extraLeadingV "vv1.2.3") ∧
    parseAndNormalizeVersion "not-a-version" =
      Except.error (VersionError.invalidSemver "not-a-version") := by
  refine ⟨?_, ?_, ?_, ?_⟩ <;> decide

/-! ## Asset-readiness poller (`wait_for_release_assets`, src/github.rs)

Time is modelled in units of one poll interval: the backend is a
function from the tick index to the result of `get_release_by_tag` on
that tick, and the wall-clock deadline becomes a maximum tick count
(`maxTicks = timeout / poll_interval`): the source checks
`Instant::now() > deadline` at the top of each iteration and sleeps
one poll interval at the bottom, so ticks `0 .. maxTicks` are
observed and the deadline check fires on tick `maxTicks + 1`.  The
successful result carries the tick index at which readiness was
declared (the Rust function returns unit; the index is the observable
time of the return). -/

/-- Insertion into a by-key-sorted association list, overwriting an
equal key (embeds `BTreeMap::insert`; `BTreeMap` equality is equality
of the sorted entry lists). -/
def insertSorted (k : String) (v : Nat) :
    List (String × Nat) → List (String × Nat)
  | [] => [(k, v)]
  | (k2, v2) :: t =>
    if k < k2 then (k, v) :: (k2, v2) :: t
    else if k = k2 then (k, v) :: t
    else (k2, v2) :: insertSorted k v t

/-- The size map built from the assets of one release response
(src/github.rs lines 262-265). -/
def buildSizes (assets : List (String × Nat)) : List (String × Nat) :=
  assets.foldl (fun m p => insertSorted p.1 p.2 m) []

/-- The expected names that are absent or reported with size `0`
(src/github.rs lines 267-273). -/
def missingOf (expected : List String) (sizes : List (String × Nat)) :
    List String :=
  expected.filter (fun e =>
    match sizes.lookup e with
    | some sz => sz == 0
    | none => true)

inductive AssetWaitErr
  | timeout (names : List String)
  | api (msg : String)
deriving DecidableEq

/-- The poll loop of `wait_for_release_assets` (src/github.rs lines
246-300).  `fuel` is the number of ticks left until the deadline
check fires; `tick` is the current tick index; `lastSizes` and
`stableCount` are the mutable loop state of the source. -/
def waitPollLoop
    (backend : Nat → Except String (Option (List (String × Nat))))
    (expected : List String) :
    Nat → Nat → Option (List (String × Nat)) → Nat →
      Except AssetWaitErr Nat
  | 0, _, _, _ => .error (.timeout expected)
  | fuel + 1, tick, lastSizes, stableCount =>
    match backend tick with
    | .error e => .error (.api e)
    | .ok none => waitPollLoop backend expected fuel (tick + 1) lastSizes stableCount
    | .ok (some assets) =>
      let sizes := buildSizes assets
      let missing := missingOf expected sizes
      if !missing.isEmpty then
        waitPollLoop backend expected fuel (tick + 1) lastSizes stableCount
      else
        let stable2 := if lastSizes = some sizes then stableCount + 1 else 0
        let last2 := if lastSizes = some sizes then lastSizes else some sizes
        if stable2 ≥ 1 then .ok tick
        else waitPollLoop backend expected fuel (tick + 1) last2 stable2

/-- `wait_for_release_assets` over a tick-indexed backend, with
deadline after `maxTicks` full poll intervals. -/
def waitForReleaseAssets
    (backend : Nat → Except String (Option (List (String × Nat))))
    (expected : List String) (maxTicks : Nat) : Except AssetWaitErr Nat :=
  waitPollLoop backend expected (maxTicks + 1) 0 none 0

/-- The fully-present size map observed at a tick: `some m` when the
release exists on that tick and every expected asset is present with
positive size, `none` otherwise. -/
def fullObs
    (backend : Nat → Except String (Option (List (String × Nat))))
    (expected : List String) (t : Nat) : Option (List (String × Nat)) :=
  match backend t with
  | .ok (some assets) =>
    let sizes := buildSizes assets
    if (missingOf expected sizes).isEmpty then some sizes else none
  | _ => none

/-- Spec-side characterization of the poller, written from the
amended claim C2: the loop keeps as baseline the most recent
fully-present size map, leaves the baseline untouched on ticks whose
release is absent or whose expected assets are missing or zero-sized,
and declares ready on the first fully-present observation that equals
the baseline. -/
def waitBaseline
    (backend : Nat → Except String (Option (List (String × Nat))))
    (expected : List String) :
    Nat → Nat → Option (List (String × Nat)) → Except AssetWaitErr Nat
  | 0, _, _ => .error (.timeout expected)
  | fuel + 1, tick, baseline =>
    match backend tick with
    | .error e => .error (.api e)
    | .ok none => waitBaseline backend expected fuel (tick + 1) baseline
    | .ok (some assets) =>
      let sizes := buildSizes assets
      if !(missingOf expected sizes).isEmpty then
        waitBaseline backend expected fuel (tick + 1) baseline
      else if baseline = some sizes then .ok tick
      else waitBaseline backend expected fuel (tick + 1) (some sizes)

theorem waitPollLoop_eq_waitBaseline
    (backend : Nat → Except String (Option (List (String × Nat))))
    (expected : List String) :
    ∀ fuel tick baseline,
      waitPollLoop backend expected fuel tick baseline 0 =
        waitBaseline backend expected fuel tick baseline := by
  intro fuel
  induction fuel with
  | zero => intro tick baseline; rfl
  | succ n ih =>
    intro tick baseline
    simp only [waitPollLoop, waitBaseline]
    cases hb : backend tick with
    | error e => rfl
    | ok rel =>
      cases rel with
      | none => exact ih (tick + 1) baseline
      | some assets =>
        by_cases hm : (missingOf expected (buildSizes assets)).isEmpty
        · by_cases hl : baseline = some (buildSizes assets)
          · simp [hm, hl]
          · simp only [hm, Bool.not_true, Bool.false_eq_true, if_false, hl,
              ge_iff_le, Nat.not_succ_le_zero, Nat.le_zero]
            exact ih (tick + 1) (some (buildSizes assets))
        · simp only [Bool.not_eq_true] at hm
          simp only [hm, Bool.not_false, if_true]
          exact ih (tick + 1) baseline

/-- Backend for the counterexample to claim C2 as stated: release
present with the single stable asset `a` of size `100` on every tick
except tick `1`, where the release is absent. -/
def c2GapBackend (t : Nat) : Except String (Option (List (String × Nat))) :=
  .ok (if t = 1 then none else some [("a", 100)])

/-- Claim C2 counterexample: the poller declares ready on tick `2`
(0-based) although tick `1` carried no fully-present size map at all,
so no two consecutive ticks showed identical fully-present maps; the
baseline recorded on tick `0` simply survives the gap.  This refutes
the claim that ready is declared exactly the first time an identical
fully-present size map is observed on two consecutive ticks. -/
theorem c2_counterexample :
    waitForReleaseAssets c2GapBackend ["a"] 10 = Except.ok 2 ∧
    fullObs c2GapBackend ["a"] 1 = none ∧
    fullObs c2GapBackend ["a"] 0 = some [("a", 100)] ∧
    fullObs c2GapBackend ["a"] 2 = some [("a", 100)] := by
  refine ⟨?_, ?_, ?_, ?_⟩ <;> decide

/-- Backend of the stability scenario of claim C2: sizes `{a: 50}`,
then `{a: 100}` on every later tick. -/
def c2StairBackend (t : Nat) : Except String (Option (List (String × Nat))) :=
  .ok (some [("a", if t = 0 then 50 else 100)])

/-- Claim C2 (amended): the poller declares ready on the first
fully-present observation whose size map equals the baseline recorded
at the most recent earlier fully-present tick; ticks with an absent
release or a missing/zero-sized expected asset leave the baseline
untouched (they do not reset consecutiveness).  In particular, for
one expected asset with backend sizes `{a: 50}`, `{a: 100}`,
`{a: 100}`, `{a: 100}` on successive ticks, the poller does not
report ready before the third tick and reports ready exactly on it
(0-based tick index 2). -/
theorem c2_poller_stability :
    (∀ backend expected fuel tick baseline,
      waitPollLoop backend expected fuel tick baseline 0 =
        waitBaseline backend expected fuel tick baseline) ∧
    waitForReleaseAssets c2StairBackend ["a"] 10 = Except.ok 2 :=
  ⟨fun backend expected fuel tick baseline =>
      waitPollLoop_eq_waitBaseline backend expected fuel tick baseline,
    by decide⟩

/-- Backend for claim C3: asset `a` is present with stable positive
size on every tick; asset `b` never appears. -/
def c3PartialBackend (_t : Nat) : Except String (Option (List (String × Nat))) :=
  .ok (some [("a", 100)])

/-- Claim C3 counterexample: with expected assets `a` and `b`, where
`a` is present with a stable positive size on every tick and `b`
never appears, the timeout failure enumerates the full expected list
`[a, b]` - including the already-present asset `a` - while the assets
still missing at expiry are exactly `[b]`.  This refutes the claim
that the error enumerates exactly the still-missing assets. -/
theorem c3_counterexample :
    waitForReleaseAssets c3PartialBackend ["a", "b"] 2 =
      Except.error (AssetWaitErr.timeout ["a", "b"]) ∧
    missingOf ["a", "b"] (buildSizes [("a", 100)]) = ["b"] ∧
    (["a", "b"] : List String) ≠ (["b"] : List String) := by
  refine ⟨?_, ?_, ?_⟩ <;> decide

theorem waitPollLoop_timeout_names
    (backend : Nat → Except String (Option (List (String × Nat))))
    (expected : List String) :
    ∀ fuel tick lastSizes stableCount names,
      waitPollLoop backend expected fuel tick lastSizes stableCount =
        Except.error (AssetWaitErr.timeout names) →
      names = expected := by
  intro fuel
  induction fuel with
  | zero =>
    intro tick lastSizes stableCount names h
    simp only [waitPollLoop, Except.error.injEq, AssetWaitErr.timeout.injEq] at h
    exact h.symm
  | succ n ih =>
    intro tick lastSizes stableCount names h
    simp only [waitPollLoop] at h
    cases hb : backend tick with
    | error e => simp [hb] at h
    | ok rel =>
      cases rel with
      | none =>
        rw [hb] at h
        exact ih (tick + 1) lastSizes stableCount names h
      | some assets =>
        rw [hb] at h
        simp only at h
        by_cases hm : (missingOf expected (buildSizes assets)).isEmpty
        · simp only [hm, Bool.not_true, Bool.false_eq_true, if_false] at h
          by_cases hl : lastSizes = some (buildSizes assets)
          · simp [hl] at h
          · simp only [hl, if_false] at h
            split at h
            · exact absurd h (by simp)
            · exact ih (tick + 1) _ _ names h
        · simp only [Bool.not_eq_true] at hm
          simp only [hm, Bool.not_false, if_true] at h
          exact ih (tick + 1) lastSizes stableCount names h

/-- Claim C3 (amended): when the expected assets never become ready
and stable within the deadline, `wait_for_release_assets` fails with
a timeout error that enumerates the full expected asset list (which
contains the still-missing names, alongside any already-present
ones). -/
theorem c3_timeout_enumerates_expected
    (backend : Nat → Except String (Option (List (String × Nat))))
    (expected : List String) (maxTicks : Nat) (names : List String)
    (h : waitForReleaseAssets backend expected maxTicks =
      Except.error (AssetWaitErr.timeout names)) :
    names = expected :=
  waitPollLoop_timeout_names backend expected (maxTicks + 1) 0 none 0 names h

theorem c3_timeout_enumerates_expected_witness :
    waitForReleaseAssets c3PartialBackend ["x"] 0 =
      Except.error (AssetWaitErr.timeout ["x"]) ∧
    (["x"] : List String) = ["x"] :=
  ⟨by decide,
    c3_timeout_enumerates_expected c3PartialBackend ["x"] 0 ["x"] (by decide)⟩

/-! ## Presentation event handler (`handle_ui_event`, src/tui.rs)

`AppState` carries every field of the source struct except
`step_started_at` (a wall-clock `Instant` used only for the elapsed
display, reset on `SetStep`).  `handle_key` and rendering are
presentation glue and are not modelled. -/

inductive ActionState
  | success
  | failure
  | running
  | unknown
deriving DecidableEq

structure RepoStatusRow where
  name : String
  action : ActionState
  latestRelease : Option String
  aheadBy : Option Nat
  loading : Bool
deriving DecidableEq

inductive UiEvent
  | setStep (title body : String)
  | updateBody (body : String)
  | setOk (msg : String)
  | setError (msg : String)
  | setRepos (rows : List RepoStatusRow)
  | finished (ok : Bool)
deriving DecidableEq

inductive Focus
  | help
  | none
deriving DecidableEq

structure AppState where
  stepTitle : String
  stepBody : String
  okMsg : String
  errorMsg : Option String
  repos : List RepoStatusRow
  helpScroll : Nat
  focus : Focus
  finished : Option Bool
deriving DecidableEq

/-- `AppState::new` (src/tui.rs lines 85-99). -/
def initAppState : AppState :=
  { stepTitle := "Initializing"
    stepBody := "Starting orchestrator…"
    okMsg := "OK"
    errorMsg := none
    repos := []
    helpScroll := 0
    focus := .none
    finished := none }

/-- Rust `msg.trim().is_empty()`. -/
def trimEmpty (s : String) : Bool :=
  s.data.all Char.isWhitespace

/-- Embeds `handle_ui_event` (src/tui.rs lines 170-202). -/
def applyUiEvent (state : AppState) (ev : UiEvent) : AppState :=
  match ev with
  | .setStep title body => { state with stepTitle := title, stepBody := body }
  | .updateBody body => { state with stepBody := body }
  | .setOk msg =>
    { state with
        errorMsg := none
        okMsg := if trimEmpty msg then "OK" else msg }
  | .setError msg => { state with errorMsg := some msg }
  | .setRepos rows => { state with repos := rows }
  | .finished ok =>
    let s2 := { state with finished := some ok }
    if ok then
      { s2 with errorMsg := none, okMsg := "DONE — press q to exit" }
    else s2

/-- Sequential application of drained events, in emission order. -/
def applyUiEvents (state : AppState) (evs : List UiEvent) : AppState :=
  evs.foldl applyUiEvent state

/-- The events that clear the error state in `handle_ui_event`:
`SetOk`, and `Finished` reporting success. -/
def uiClears : UiEvent → Bool
  | .setOk _ => true
  | .finished true => true
  | _ => false

/-- Claim C4 counterexample: after a `SetError`, a `SetStep`
(StepChanged) event does not clear the error state - `handle_ui_event`
leaves `error_msg` untouched on `SetStep` - refuting the claim that
the error is cleared exactly by the next StepChanged or MarkOk
event. -/
theorem c4_counterexample :
    (applyUiEvents initAppState
      [UiEvent.setError "boom", UiEvent.setStep "t" "b"]).errorMsg =
      some "boom" := by
  decide

theorem applyUiEvent_nonclearing_keeps_error (s : AppState) (e : UiEvent)
    (hc : uiClears e = false) (hs : s.errorMsg.isSome = true) :
    ((applyUiEvent s e).errorMsg).isSome = true := by
  cases e with
  | setStep title body => exact hs
  | updateBody body => exact hs
  | setOk msg => simp [uiClears] at hc
  | setError msg => simp [applyUiEvent]
  | setRepos rows => exact hs
  | finished ok =>
    cases ok with
    | true => simp [uiClears] at hc
    | false => exact hs

/-- Claim C4 (amended): after a `MarkError` (`SetError`) event the
error state persists across subsequent `BodyUpdated` and `StepChanged`
events and across every other non-clearing event; it is cleared
exactly by the next `MarkOk` (`SetOk`) event or by a `Finished` event
reporting success, and it never clears on its own. -/
theorem c4_error_stickiness :
    (∀ (s : AppState) (evs : List UiEvent),
      s.errorMsg.isSome = true →
      (∀ e ∈ evs, uiClears e = false) →
      ((applyUiEvents s evs).errorMsg).isSome = true) ∧
    (∀ (s : AppState) (m : String),
      (applyUiEvent s (UiEvent.setOk m)).errorMsg = none) ∧
    (∀ (s : AppState),
      (applyUiEvent s (UiEvent.finished true)).errorMsg = none) := by
  refine ⟨?_, ?_, ?_⟩
  · intro s evs
    induction evs generalizing s with
    | nil => intro hs _; exact hs
    | cons e t ih =>
      intro hs hall
      exact ih (applyUiEvent s e)
        (applyUiEvent_nonclearing_keeps_error s e
          (hall e (List.mem_cons_self e t)) hs)
        (fun x hx => hall x (List.mem_cons_of_mem e hx))
  · intro s m; simp [applyUiEvent]
  · intro s; simp [applyUiEvent]

theorem c4_error_stickiness_witness :
    ((applyUiEvent initAppState (UiEvent.setError "boom")).errorMsg).isSome =
        true ∧
    (∀ e ∈ [UiEvent.setStep "t" "b", UiEvent.updateBody "x"],
      uiClears e = false) ∧
    ((applyUiEvents (applyUiEvent initAppState (UiEvent.setError "boom"))
      [UiEvent.setStep "t" "b", UiEvent.updateBody "x"]).errorMsg).isSome =
      true :=
  ⟨by decide, by decide,
    c4_error_stickiness.1 (applyUiEvent initAppState (UiEvent.setError "boom"))
      [UiEvent.setStep "t" "b", UiEvent.updateBody "x"] (by decide) (by decide)⟩

/-! ## Substring containment characterization -/

theorem charsPrefix_iff (n : List Char) :
    ∀ h, charsPrefix n h = true ↔ ∃ q, h = n ++ q := by
  induction n with
  | nil =>
    intro h
    simp [charsPrefix]
  | cons a as ih =>
    intro h
    cases h with
    | nil =>
      simp [charsPrefix]
    | cons b bs =>
      simp only [charsPrefix, Bool.and_eq_true, beq_iff_eq]
      constructor
      · rintro ⟨rfl, hp⟩
        obtain ⟨q, rfl⟩ := (ih bs).mp hp
        exact ⟨q, rfl⟩
      · rintro ⟨q, hq⟩
        rw [List.cons_append] at hq
        obtain ⟨rfl, rfl⟩ := List.cons.injEq .. ▸ hq
        · exact ⟨rfl, (ih _).mpr ⟨q, rfl⟩⟩

theorem charsContains_iff (n : List Char) :
    ∀ h, charsContains n h = true ↔ ∃ p q, h = p ++ n ++ q := by
  intro h
  induction h with
  | nil =>
    simp only [charsContains, List.isEmpty_iff]
    constructor
    · rintro rfl
      exact ⟨[], [], rfl⟩
    · rintro ⟨p, q, hpq⟩
      have := List.append_eq_nil.mp (List.append_eq_nil.mp hpq.symm).1
      exact this.2
  | cons c t ih =>
    simp only [charsContains, Bool.or_eq_true]
    constructor
    · rintro (hp | hc)
      · obtain ⟨q, hq⟩ := (charsPrefix_iff n (c :: t)).mp hp
        exact ⟨[], q, by simpa using hq⟩
      · obtain ⟨p, q, rfl⟩ := ih.mp hc
        exact ⟨c :: p, q, rfl⟩
    · rintro ⟨p, q, hpq⟩
      cases p with
      | nil =>
        left
        exact (charsPrefix_iff n (c :: t)).mpr ⟨q, by simpa using hpq⟩
      | cons x xs =>
        right
        refine ih.mpr ⟨xs, q, ?_⟩
        simpa using List.tail_eq_of_cons_eq hpq

/-! ## Errors of the release orchestrator -/

inductive RunError
  | invalidVersion (e : VersionError)
  | cannotInferRoot
  | missingRepoDir (dir : String)
  | gitFailed (dir msg : String)
  | originMismatch (dir needle url : String)
  | dirtyWorktree (dir status : String)
  | notSynced (dir msg : String)
  | tagAlreadyReleased (dir : String)
  | localTagNotAtHead (dir tagCommit headCommit : String)
  | missingToken
  | assetsTimeout (repo : String) (names : List String)
  | assetsApi (repo msg : String)
deriving DecidableEq

/-! ## Origin-remote check (`ensure_origin_matches_expected`, src/git.rs)

The result of `git remote get-url origin` is supplied by the
environment as `urlRes`; the check itself (src/git.rs lines 111-124)
lowercases both the URL and the `owner/name` needle and requires
substring containment.  `strToLower` lowers characters one by one,
which coincides with Rust `to_lowercase` on the ASCII URLs and
owner/repo names in scope. -/

def strToLower (s : String) : String :=
  ⟨s.data.map Char.toLower⟩

def ensureOriginMatchesExpected (owner name dir : String)
    (urlRes : Except String String) : Except RunError Unit :=
  match urlRes with
  | .error e => .error (.gitFailed dir e)
  | .ok url =>
    let needle := owner ++ "/" ++ name
    if strContains (strToLower url) (strToLower needle) then .ok ()
    else .error (.originMismatch dir needle url)

/-- Claim C10: the preflight origin check accepts a repository exactly
when the lowercased origin URL contains the lowercased substring
`owner/name` - case-insensitive substring containment on any host -
and otherwise fails with the origin-mismatch error. -/
theorem c10_origin_check (owner name dir url : String) :
    (ensureOriginMatchesExpected owner name dir (Except.ok url) =
        Except.ok () ↔
      ∃ p q, (strToLower url).data =
        p ++ (strToLower (owner ++ "/" ++ name)).data ++ q) ∧
    (ensureOriginMatchesExpected owner name dir (Except.ok url) =
        Except.error
          (RunError.originMismatch dir (owner ++ "/" ++ name) url) ↔
      ¬ ∃ p q, (strToLower url).data =
        p ++ (strToLower (owner ++ "/" ++ name)).data ++ q) := by
  constructor
  · rw [← charsContains_iff]
    simp only [ensureOriginMatchesExpected, strContains]
    constructor
    · intro h
      by_cases hc :
          charsContains (strToLower (owner ++ "/" ++ name)).data
            (strToLower url).data = true
      · exact hc
      · simp [hc] at h
    · intro hc
      simp [hc]
  · rw [← charsContains_iff]
    simp only [ensureOriginMatchesExpected, strContains]
    constructor
    · intro h
      by_cases hc :
          charsContains (strToLower (owner ++ "/" ++ name)).data
            (strToLower url).data = true
      · simp [hc] at h
      · simp [hc]
    · intro hc
      simp only [Bool.not_eq_true] at hc
      simp [hc]

/-! ## Fleet monitor (`refresh_rows_incremental`, src/monitor.rs)

The hosting-service client is modelled as an environment of per-call
results; each refresh pass also returns the list of API calls it
performed.  The `SetRepos` events sent to the presentation layer
after each repo (pure narration) are not modelled. -/

structure WorkflowRun where
  status : String
  conclusion : Option String
deriving DecidableEq

structure MonitorEnv where
  defaultBranch : String → Except String String
  latestRun : String → Except String (Option WorkflowRun)
  latestReleaseTag : String → Except String (Option String)
  aheadBy : String → String → String → Except String Nat

inductive ApiCall
  | getDefaultBranch (repo : String)
  | getLatestRun (repo : String)
  | getLatestReleaseTag (repo : String)
  | compareAheadBy (repo base head : String)
deriving DecidableEq

/-- The static repo list of the monitor (src/monitor.rs lines 24-37). -/
def monitorRepos : List String :=
  [".github", "docs", "installer", "installer-iso", "installer-kernel",
   "installer-kernel-builder-image", "orchestrator", "truthdb",
   "truthdb-cli", "truthdb-net", "truthdb-proto", "website"]

/-- CI state mapping (src/monitor.rs lines 141-156). -/
def classifyRun (run : WorkflowRun) : ActionState :=
  if run.status = "completed" then
    match run.conclusion with
    | some c =>
      if c = "success" then .success
      else if c = "failure" || c = "cancelled" || c = "timed_out" then .failure
      else .unknown
    | none => .unknown
  else .running

/-- The latest published release tag as the refresh pass records it
(src/monitor.rs lines 158-161): `Ok(Some(tag))` yields the tag,
`Ok(None)` and `Err` both yield `None`. -/
def monReleaseTag (env : MonitorEnv) (repo : String) : Option String :=
  match env.latestReleaseTag repo with
  | .ok (some t) => some t
  | .ok none => none
  | .error _ => none

structure RepoRefresh where
  action : ActionState
  releaseTag : Option String
  aheadBy : Option Nat
deriving DecidableEq

/-- Per-repository body of the refresh pass (src/monitor.rs lines
132-173), returning the recorded fields and the API calls made. -/
def processRepo (env : MonitorEnv) (repo : String) : RepoRefresh × List ApiCall :=
  let defaultBranch :=
    match env.defaultBranch repo with
    | .ok b => b
    | .error _ => "main"
  let action :=
    match env.latestRun repo with
    | .ok (some run) => classifyRun run
    | .ok none => .unknown
    | .error _ => .unknown
  let releaseTag := monReleaseTag env repo
  let aheadBy :=
    match releaseTag with
    | some t =>
      match env.aheadBy repo t defaultBranch with
      | .ok n => some n
      | .error _ => none
    | none => none
  (⟨action, releaseTag, aheadBy⟩,
    [ApiCall.getDefaultBranch repo, ApiCall.getLatestRun repo,
     ApiCall.getLatestReleaseTag repo] ++
      (match releaseTag with
       | some t => [ApiCall.compareAheadBy repo t defaultBranch]
       | none => []))

/-- In-place update of the element at one index; out-of-range indices
leave the list unchanged (Rust `rows.get_mut(i)` with a `Some` guard). -/
def modifyAt {α : Type} : Nat → (α → α) → List α → List α
  | _, _, [] => []
  | 0, f, x :: t => f x :: t
  | i + 1, f, x :: t => x :: modifyAt i f t

/-- Write the refreshed fields into a row (src/monitor.rs lines
168-173). -/
def writeRow (res : RepoRefresh) (row : RepoStatusRow) : RepoStatusRow :=
  { row with
      action := res.action
      latestRelease := res.releaseTag
      aheadBy := res.aheadBy
      loading := false }

/-- The indexed loop of the refresh pass (src/monitor.rs lines
132-179). -/
def refreshFold (env : MonitorEnv) (showLoading : Bool) :
    List (Nat × String) → List RepoStatusRow →
      List RepoStatusRow × List ApiCall
  | [], rows => (rows, [])
  | (i, repo) :: rest, rows =>
    let rows2 :=
      modifyAt i (writeRow (processRepo env repo).1)
        (modifyAt i (fun row => { row with loading := showLoading }) rows)
    ((refreshFold env showLoading rest rows2).1,
      (processRepo env repo).2 ++ (refreshFold env showLoading rest rows2).2)

/-- Embeds `refresh_rows_incremental` (src/monitor.rs lines 117-182):
an initial all-loading pass when `showLoading` is set, then the
per-repo loop over the static repo list. -/
def refreshRowsIncremental (env : MonitorEnv) (rows : List RepoStatusRow)
    (showLoading : Bool) : List RepoStatusRow × List ApiCall :=
  let rows0 :=
    if showLoading then rows.map (fun row => { row with loading := true })
    else rows
  refreshFold env showLoading monitorRepos.enum rows0

theorem refreshFold_calls_mem (env : MonitorEnv) (showLoading : Bool) :
    ∀ (pairs : List (Nat × String)) (rows : List RepoStatusRow)
      (c : ApiCall), c ∈ (refreshFold env showLoading pairs rows).2 →
      ∃ pr ∈ pairs, c ∈ (processRepo env pr.2).2 := by
  intro pairs
  induction pairs with
  | nil => intro rows c hc; simp [refreshFold] at hc
  | cons pr rest ih =>
    intro rows c hc
    obtain ⟨i, repo⟩ := pr
    simp only [refreshFold, List.mem_append] at hc
    rcases hc with hc | hc
    · exact ⟨(i, repo), List.mem_cons_self _ _, hc⟩
    · obtain ⟨pr2, hmem, hc2⟩ := ih _ c hc
      exact ⟨pr2, List.mem_cons_of_mem _ hmem, hc2⟩

theorem processRepo_call_shape (env : MonitorEnv) (r : String) (c : ApiCall)
    (h : c ∈ (processRepo env r).2) :
    c = .getDefaultBranch r ∨ c = .getLatestRun r ∨
    c = .getLatestReleaseTag r ∨
    ∃ b hd, c = .compareAheadBy r b hd := by
  simp only [processRepo, List.mem_append, List.mem_cons,
    List.mem_singleton] at h
  rcases h with (h | h | h | h) | h
  · exact Or.inl h
  · exact Or.inr (Or.inl h)
  · exact Or.inr (Or.inr (Or.inl h))
  · simp at h
  · cases htag : monReleaseTag env r with
    | none => rw [htag] at h; simp at h
    | some t =>
      rw [htag] at h
      simp only [List.mem_singleton] at h
      exact Or.inr (Or.inr (Or.inr ⟨t, _, h⟩))

/-- Claim C9: in a refresh pass, the ahead-by count is queried only
when a latest published release tag exists; when the release lookup
returns none or fails, the recorded `ahead_by` field is `None` and no
compare call for that repository occurs anywhere in the pass. -/
theorem c9_ahead_by_only_with_release_tag (env : MonitorEnv)
    (rows : List RepoStatusRow) (showLoading : Bool) (repo : String)
    (h : env.latestReleaseTag repo = Except.ok none ∨
      ∃ e, env.latestReleaseTag repo = Except.error e) :
    (processRepo env repo).1.aheadBy = none ∧
    ∀ b hd, ApiCall.compareAheadBy repo b hd ∉
      (refreshRowsIncremental env rows showLoading).2 := by
  have htag : monReleaseTag env repo = none := by
    rcases h with h | ⟨e, h⟩ <;> simp [monReleaseTag, h]
  constructor
  · simp [processRepo, htag]
  · intro b hd hmem
    obtain ⟨pr, _, hc⟩ :=
      refreshFold_calls_mem env showLoading monitorRepos.enum _
        (ApiCall.compareAheadBy repo b hd) hmem
    rcases processRepo_call_shape env pr.2 _ hc with h1 | h1 | h1 | ⟨b2, hd2, h1⟩
    · simp at h1
    · simp at h1
    · simp at h1
    · obtain ⟨rfl, _, _⟩ := ApiCall.compareAheadBy.injEq .. ▸ h1
      · rw [← (ApiCall.compareAheadBy.inj h1).1] at hc
        simp only [processRepo, htag, List.mem_append] at hc
        rcases hc with hc | hc
        · simp at hc
        · simp at hc

/-- Environment for the C9 witness: no repository has a published
release. -/
def monEnvNoRelease : MonitorEnv :=
  { defaultBranch := fun _ => .ok "main"
    latestRun := fun _ => .ok none
    latestReleaseTag := fun _ => .ok none
    aheadBy := fun _ _ _ => .ok 0 }

theorem c9_ahead_by_only_with_release_tag_witness :
    (monEnvNoRelease.latestReleaseTag "truthdb" = Except.ok none ∨
      ∃ e, monEnvNoRelease.latestReleaseTag "truthdb" = Except.error e) ∧
    ((processRepo monEnvNoRelease "truthdb").1.aheadBy = none ∧
      ∀ b hd, ApiCall.compareAheadBy "truthdb" b hd ∉
        (refreshRowsIncremental monEnvNoRelease [] true).2) :=
  ⟨Or.inl rfl,
    c9_ahead_by_only_with_release_tag monEnvNoRelease [] true "truthdb"
      (Or.inl rfl)⟩

/-! ## Release orchestrator (`run`, src/release_iso.rs)

The orchestrator is embedded as a function from an environment - the
per-repository results of every version-control call, the resolved
release token, and the file-system queries - to a result and a trace
of performed operations.  Trace elements cover every collaborator
call (reads and mutations) and every narration event, so the
preflight-before-mutation ordering, the frame conditions of the apply
phase, and the dry-run narration can all be stated on the trace.
`poll_interval` and `timeout` only parameterize the asset wait, whose
outcome the environment supplies directly (the wait loop itself is
verified separately above). -/

inductive Op
  | step (title body : String)
  | update (body : String)
  | okMsg (msg : String)
  | checkDir (dir : String)
  | gitOriginQuery (repo : String)
  | gitFetch (repo : String)
  | gitRemoteTagQuery (repo tagName : String)
  | gitStatusQuery (repo : String)
  | gitSyncQuery (repo : String)
  | gitLocalTagQuery (repo tagName : String)
  | gitHeadQuery (repo : String)
  | gitTagAbsentQuery (repo tagName : String)
  | gitCreateTag (repo tagName : String)
  | gitPushTag (repo tagName : String)
  | ghWaitAssets (repo tagName : String) (expected : List String)
deriving DecidableEq

/-- Per-repository results of the version-control collaborator
(`Repo`, src/git.rs) and of the asset wait. -/
structure RepoEnv where
  originUrl : Except String String
  fetchResult : Except String Unit
  remoteTag : Except String (Option String)
  worktreeStatus : Except String String
  branchSync : Except String String
  localTag : Except String (Option String)
  headCommit : Except String String
  tagAbsent : Except String Unit
  createTag : Except String Unit
  pushTag : Except String Unit
  waitAssets : Except AssetWaitErr Unit

/-- The run environment: collaborator results per repository, the
resolved release token (`GITHUB_TOKEN` or `GH_TOKEN`, empty when
unset), and the file-system directory queries. -/
structure Env where
  repoEnv : String → RepoEnv
  token : String
  cwd : String
  cwdParent : Option String
  isDir : String → Bool

structure ReleaseIsoArgs where
  version : String
  reposRoot : Option String
  owner : String
  dryRun : Bool
  resume : Bool

/-- The fixed release order (src/release_iso.rs lines 147-155). -/
def reposInOrder : List String :=
  ["installer-kernel", "installer", "truthdb", "truthdb-cli",
   "truthdb-net", "truthdb-proto", "installer-iso"]

/-- `looks_like_repos_root` (src/release_iso.rs lines 70-81). -/
def looksLikeReposRoot (isDir : String → Bool) (dir : String) : Bool :=
  ["truthdb", "installer", "installer-kernel", "installer-iso",
   "truthdb-net", "truthdb-proto"].all
    (fun name => isDir (dir ++ "/" ++ name))

/-- `default_repos_root` (src/release_iso.rs lines 48-68). -/
def defaultReposRoot (env : Env) : Except RunError String :=
  if looksLikeReposRoot env.isDir env.cwd then .ok env.cwd
  else
    match env.cwdParent with
    | none => .error .cannotInferRoot
    | some p =>
      if looksLikeReposRoot env.isDir p then .ok p
      else .error .cannotInferRoot

/-- The repos-root actually used: the `--repos-root` argument when
given, the inferred default otherwise (src/release_iso.rs lines
140-143). -/
def resolvedRoot (env : Env) (args : ReleaseIsoArgs) : Except RunError String :=
  match args.reposRoot with
  | some p => .ok p
  | none => defaultReposRoot env

/-- `expected_assets` (src/release_iso.rs lines 83-124). -/
def expectedAssets (repo ver : String) : List String :=
  match repo with
  | "installer-kernel" => ["BOOTX64.EFI"]
  | "installer" =>
    ["truthdb-installer-v" ++ ver ++ "-x86_64-linux-musl.tar.gz",
     "truthdb-installer-v" ++ ver ++ "-x86_64-linux-musl.sha256"]
  | "truthdb" =>
    ["truthdb-v" ++ ver ++ "-x86_64-linux-gnu.tar.gz",
     "truthdb-v" ++ ver ++ "-x86_64-linux-gnu.sha256"]
  | "truthdb-cli" =>
    ["truthdb-cli-v" ++ ver ++ "-x86_64-linux-gnu.tar.gz",
     "truthdb-cli-v" ++ ver ++ "-x86_64-linux-gnu.sha256"]
  | "truthdb-net" =>
    ["truthdb-net-v" ++ ver ++ "-x86_64-linux-gnu.tar.gz",
     "truthdb-net-v" ++ ver ++ "-x86_64-linux-gnu.sha256"]
  | "truthdb-proto" =>
    ["truthdb-proto-v" ++ ver ++ "-x86_64-linux-gnu.tar.gz",
     "truthdb-proto-v" ++ ver ++ "-x86_64-linux-gnu.sha256"]
  | "installer-iso" =>
    ["truthdb-installer-v" ++ ver ++ ".iso",
     "truthdb-installer-v" ++ ver ++ ".iso.sha256"]
  | _ => []

/-! Rust `{:?}` (Debug) formatting of a `Vec<String>`, used by the
narration messages. -/

def escapeDebugChar (c : Char) : List Char :=
  if c = '"' then ['\\', '"']
  else if c = '\\' then ['\\', '\\']
  else if c = '\n' then ['\\', 'n']
  else if c = '\r' then ['\\', 'r']
  else if c = '\t' then ['\\', 't']
  else [c]

def debugStr (s : String) : List Char :=
  '"' :: (s.data.flatMap escapeDebugChar ++ ['"'])

def joinCommaSp : List (List Char) → List Char
  | [] => []
  | [x] => x
  | x :: y :: t => x ++ ',' :: ' ' :: joinCommaSp (y :: t)

def debugListFmt (names : List String) : String :=
  ⟨'[' :: (joinCommaSp (names.map debugStr) ++ [']'])⟩

/-! Narration messages of the run (src/release_iso.rs). -/

def initBody (ver tg : String) (dryRun resume : Bool) : String :=
  "version=" ++ ver ++ " (tag=" ++ tg ++ ")\nmode=" ++
    (if dryRun then "dry-run" else "live") ++
    (if resume then ", resume" else "")

def dryRunSkipMsg (r : String) : String :=
  "[" ++ r ++ "] (dry-run) tag already on origin; would skip tagging"

def dryRunWouldTagMsg (r : String) : String :=
  "[" ++ r ++ "] (dry-run) would create annotated tag and push"

def liveSkipMsg (r : String) : String :=
  "[" ++ r ++ "] tag already exists on origin; skipping create/push"

def wouldWaitMsg (r : String) (expected : List String) : String :=
  "[" ++ r ++ "] (dry-run) would wait for assets: " ++ debugListFmt expected

/-- Sequential composition with trace accumulation and error
short-circuit (the `?` operator plus the reporter side effects). -/
def andThen {α β : Type} (x : Except RunError α × List Op)
    (f : α → Except RunError β × List Op) : Except RunError β × List Op :=
  match x with
  | (.ok a, tr) => ((f a).1, tr ++ (f a).2)
  | (.error e, tr) => (.error e, tr)

/-! Preflight steps (src/release_iso.rs lines 168-225).  Each step
carries its narration and collaborator-call trace; the result comes
from the environment. -/

def preflightDirStep (env : Env) (r dir : String) :
    Except RunError Unit × List Op :=
  ((if env.isDir dir then .ok () else .error (.missingRepoDir dir)),
   [.step ("Preflight [" ++ r ++ "]") ("Checking repo at " ++ dir),
    .checkDir dir])

def preflightOriginStep (env : Env) (owner r dir : String) :
    Except RunError Unit × List Op :=
  (ensureOriginMatchesExpected owner r dir (env.repoEnv r).originUrl,
   [.update "Verifying origin remote…", .gitOriginQuery r])

def preflightFetchStep (env : Env) (r dir : String) :
    Except RunError Unit × List Op :=
  ((match (env.repoEnv r).fetchResult with
    | .ok () => .ok ()
    | .error e => .error (.gitFailed dir e)),
   [.update "Fetching origin tags…", .gitFetch r])

def preflightRemoteTagStep (env : Env) (tg r dir : String) :
    Except RunError Bool × List Op :=
  ((match (env.repoEnv r).remoteTag with
    | .ok res => .ok res.isSome
    | .error e => .error (.gitFailed dir e)),
   [.update ("Checking remote tag " ++ tg ++ "…"), .gitRemoteTagQuery r tg])

def preflightCleanStep (env : Env) (r dir : String) :
    Except RunError Unit × List Op :=
  ((match (env.repoEnv r).worktreeStatus with
    | .ok st => if st = "" then .ok () else .error (.dirtyWorktree dir st)
    | .error e => .error (.gitFailed dir e)),
   [.update "Ensuring worktree clean…", .gitStatusQuery r])

def preflightSyncStep (env : Env) (r dir : String) :
    Except RunError Unit × List Op :=
  ((match (env.repoEnv r).branchSync with
    | .ok _branch => .ok ()
    | .error e => .error (.notSynced dir e)),
   [.update "Ensuring branch is synced with origin…", .gitSyncQuery r])

/-- Resume-mode local-tag consistency check (src/release_iso.rs lines
207-220): a pre-existing local tag must point at HEAD; the HEAD query
only happens when a local tag exists. -/
def preflightResumeTagStep (env : Env) (tg r dir : String) :
    Except RunError Unit × List Op :=
  match (env.repoEnv r).localTag with
  | .error e => (.error (.gitFailed dir e), [.gitLocalTagQuery r tg])
  | .ok none => (.ok (), [.gitLocalTagQuery r tg])
  | .ok (some c) =>
    match (env.repoEnv r).headCommit with
    | .error e =>
      (.error (.gitFailed dir e), [.gitLocalTagQuery r tg, .gitHeadQuery r])
    | .ok hd =>
      ((if c = hd then .ok () else .error (.localTagNotAtHead dir c hd)),
       [.gitLocalTagQuery r tg, .gitHeadQuery r])

def preflightTagAbsentStep (env : Env) (tg r dir : String) :
    Except RunError Unit × List Op :=
  ((match (env.repoEnv r).tagAbsent with
    | .ok () => .ok ()
    | .error e => .error (.gitFailed dir e)),
   [.update "Ensuring local/remote tag absent…", .gitTagAbsentQuery r tg])

/-- One repository of the preflight loop (src/release_iso.rs lines
168-225); the returned boolean is `is_remote_tagged`, recorded in the
snapshot. -/
def preflightRepo (env : Env) (owner : String) (resume : Bool)
    (tg r dir : String) : Except RunError Bool × List Op :=
  andThen (preflightDirStep env r dir) fun _ =>
  andThen (preflightOriginStep env owner r dir) fun _ =>
  andThen (preflightFetchStep env r dir) fun _ =>
  andThen (preflightRemoteTagStep env tg r dir) fun tagged =>
  if tagged then
    if resume then (.ok true, [])
    else (.error (.tagAlreadyReleased dir), [])
  else
    andThen (preflightCleanStep env r dir) fun _ =>
    andThen (preflightSyncStep env r dir) fun _ =>
    andThen
      (if resume then preflightResumeTagStep env tg r dir
       else preflightTagAbsentStep env tg r dir) fun _ =>
    ((.ok false : Except RunError Bool), [])

/-- The whole preflight phase over a repository list, accumulating
the `remote_tagged` snapshot. -/
def preflightAll (env : Env) (owner : String) (resume : Bool)
    (tg root : String) :
    List String → Except RunError (List (String × Bool)) × List Op
  | [] => (.ok [], [])
  | r :: rest =>
    match preflightRepo env owner resume tg r (root ++ "/" ++ r) with
    | (.error e, tr) => (.error e, tr)
    | (.ok b, tr) =>
      match preflightAll env owner resume tg root rest with
      | (.error e, tr2) => (.error e, tr ++ tr2)
      | (.ok snap, tr2) => (.ok ((r, b) :: snap), tr ++ tr2)

/-- Snapshot lookup with default `false`
(`remote_tagged.get(..).unwrap_or(&false)`). -/
def snapLookup (snap : List (String × Bool)) (r : String) : Bool :=
  match snap.lookup r with
  | some b => b
  | none => false

/-! Apply steps (src/release_iso.rs lines 243-300). -/

/-- Tag creation: only when no local tag exists yet (src/release_iso.rs
lines 265-269). -/
def applyCreateStep (env : Env) (tg r dir : String) :
    Except RunError Unit × List Op :=
  match (env.repoEnv r).localTag with
  | .error e => (.error (.gitFailed dir e), [.gitLocalTagQuery r tg])
  | .ok (some _) => (.ok (), [.gitLocalTagQuery r tg])
  | .ok none =>
    ((match (env.repoEnv r).createTag with
      | .ok () => .ok ()
      | .error e => .error (.gitFailed dir e)),
     [.gitLocalTagQuery r tg, .update "Creating annotated tag…",
      .gitCreateTag r tg])

def applyPushStep (env : Env) (tg r dir : String) :
    Except RunError Unit × List Op :=
  ((match (env.repoEnv r).pushTag with
    | .ok () => .ok ()
    | .error e => .error (.gitFailed dir e)),
   [.update "Pushing tag to origin…", .gitPushTag r tg])

/-- The tagging part of the apply loop body (src/release_iso.rs lines
247-273): the skip decision consults only the `tagged` boolean taken
from the preflight snapshot. -/
def applyTagStep (env : Env) (dryRun tagged : Bool) (tg r dir : String) :
    Except RunError Unit × List Op :=
  if dryRun then
    if tagged then (.ok (), [.update (dryRunSkipMsg r)])
    else (.ok (), [.update (dryRunWouldTagMsg r)])
  else if tagged then (.ok (), [.update (liveSkipMsg r)])
  else
    andThen (applyCreateStep env tg r dir) fun _ =>
    applyPushStep env tg r dir

/-- The asset part of the apply loop body (src/release_iso.rs lines
275-299). -/
def applyAssetsStep (env : Env) (dryRun ghAvailable : Bool)
    (tg ver r : String) : Except RunError Unit × List Op :=
  let expected := expectedAssets r ver
  if expected.isEmpty then (.ok (), [])
  else if dryRun then (.ok (), [.update (wouldWaitMsg r expected)])
  else if ghAvailable then
    ((match (env.repoEnv r).waitAssets with
      | .ok () => .ok ()
      | .error (.timeout names) => .error (.assetsTimeout r names)
      | .error (.api m) => .error (.assetsApi r m)),
     [.step ("Waiting for assets [" ++ r ++ "]")
        ("expected=" ++ debugListFmt expected),
      .ghWaitAssets r tg expected])
  else (.ok (), [])

/-- One repository of the apply loop (src/release_iso.rs lines
243-300). -/
def applyRepo (env : Env) (dryRun ghAvailable tagged : Bool)
    (tg ver r dir : String) : Except RunError Unit × List Op :=
  andThen ((.ok (), [Op.step ("Tagging [" ++ r ++ "]") ("tag=" ++ tg)]) :
      Except RunError Unit × List Op) fun _ =>
  andThen (applyTagStep env dryRun tagged tg r dir) fun _ =>
  applyAssetsStep env dryRun ghAvailable tg ver r

/-- The whole apply phase over a repository list. -/
def applyAll (env : Env) (dryRun ghAvailable : Bool)
    (snap : List (String × Bool)) (tg ver root : String) :
    List String → Except RunError Unit × List Op
  | [] => (.ok (), [])
  | r :: rest =>
    andThen (applyRepo env dryRun ghAvailable (snapLookup snap r) tg ver r
        (root ++ "/" ++ r)) fun _ =>
    applyAll env dryRun ghAvailable snap tg ver root rest

/-- Whether a hosting-service client is constructed
(src/release_iso.rs lines 237-241): not in dry-run mode and only with
a nonempty token. -/
def ghAvail (env : Env) (args : ReleaseIsoArgs) : Bool :=
  !args.dryRun && !(env.token == "")

/-- The narration before the preflight loop: the Initialize step and
the repos-root update (src/release_iso.rs lines 129-145). -/
def preTrace (args : ReleaseIsoArgs) (tg ver root : String) : List Op :=
  [Op.step "Initialize" (initBody ver tg args.dryRun args.resume),
   Op.update ("repos_root=" ++ root)]

/-- The closing narration (src/release_iso.rs lines 302-306). -/
def finalOps (tg : String) : List Op :=
  [Op.step "Complete"
      ("All done. installer-iso release should now produce the ISO for " ++
        tg ++ "."),
   Op.okMsg "OK"]

/-- Embeds `run` (src/release_iso.rs lines 126-308): normalize the
version, resolve the repos root, run the full preflight phase over
every repository in order, check the token, then run the apply phase
in the same order. -/
def runRelease (env : Env) (args : ReleaseIsoArgs) :
    Except RunError Unit × List Op :=
  match parseAndNormalizeVersion args.version with
  | .error e => (.error (.invalidVersion e), [])
  | .ok (tg, ver) =>
    match resolvedRoot env args with
    | .error e =>
      (.error e, [Op.step "Initialize" (initBody ver tg args.dryRun args.resume)])
    | .ok root =>
      match preflightAll env args.owner args.resume tg root reposInOrder with
      | (.error e, ptr) => (.error e, preTrace args tg ver root ++ ptr)
      | (.ok snap, ptr) =>
        if !args.dryRun && env.token == "" then
          (.error .missingToken, preTrace args tg ver root ++ ptr)
        else
          match applyAll env args.dryRun (ghAvail env args) snap tg ver root
              reposInOrder with
          | (.error e, atr) =>
            (.error e, preTrace args tg ver root ++ ptr ++ atr)
          | (.ok (), atr) =>
            (.ok (), preTrace args tg ver root ++ ptr ++ atr ++ finalOps tg)

/-- The mutating operations of the claims: tag create and tag push. -/
def isMutation : Op → Bool
  | .gitCreateTag _ _ => true
  | .gitPushTag _ _ => true
  | _ => false

/-- Hosting-service calls made by the run. -/
def isGhCall : Op → Bool
  | .ghWaitAssets _ _ _ => true
  | _ => false

/-- Remote-tag-existence queries. -/
def isRemoteTagQuery : Op → Bool
  | .gitRemoteTagQuery _ _ => true
  | _ => false

/-- Operations that are neither mutations nor hosting-service calls. -/
def opSafe (op : Op) : Bool := !isMutation op && !isGhCall op

theorem opSafe_mut (op : Op) (h : opSafe op = true) : isMutation op = false := by
  cases op <;> simp_all [opSafe, isMutation, isGhCall]

theorem opSafe_gh (op : Op) (h : opSafe op = true) : isGhCall op = false := by
  cases op <;> simp_all [opSafe, isMutation, isGhCall]

theorem andThen_all {α β : Type} (p : Op → Bool)
    (x : Except RunError α × List Op) (f : α → Except RunError β × List Op)
    (hx : x.2.all p = true) (hf : ∀ a, ((f a).2).all p = true) :
    ((andThen x f).2).all p = true := by
  obtain ⟨res, tr⟩ := x
  cases res with
  | error e => simpa [andThen] using hx
  | ok a =>
    simp only [andThen, List.all_append, Bool.and_eq_true]
    exact ⟨hx, hf a⟩

theorem filter_eq_nil_of_all (l : List Op) (p q : Op → Bool)
    (h : l.all p = true) (hpq : ∀ op, p op = true → q op = false) :
    l.filter q = [] := by
  induction l with
  | nil => rfl
  | cons a t ih =>
    simp only [List.all_cons, Bool.and_eq_true] at h
    simp [List.filter_cons, hpq a h.1, ih h.2]

theorem preflightResumeTagStep_safe (env : Env) (tg r dir : String) :
    ((preflightResumeTagStep env tg r dir).2).all opSafe = true := by
  unfold preflightResumeTagStep
  cases (env.repoEnv r).localTag with
  | error e => rfl
  | ok o =>
    cases o with
    | none => rfl
    | some c =>
      cases (env.repoEnv r).headCommit with
      | error e => rfl
      | ok hd => rfl

theorem preflightRepo_ops_safe (env : Env) (owner : String) (resume : Bool)
    (tg r dir : String) :
    ((preflightRepo env owner resume tg r dir).2).all opSafe = true := by
  unfold preflightRepo
  refine andThen_all _ _ _ rfl (fun _ => ?_)
  refine andThen_all _ _ _ rfl (fun _ => ?_)
  refine andThen_all _ _ _ rfl (fun _ => ?_)
  refine andThen_all _ _ _ rfl (fun tagged => ?_)
  cases tagged with
  | true =>
    cases resume with
    | true => rfl
    | false => rfl
  | false =>
    refine andThen_all _ _ _ rfl (fun _ => ?_)
    refine andThen_all _ _ _ rfl (fun _ => ?_)
    refine andThen_all _ _ _ ?_ (fun _ => rfl)
    cases resume with
    | true => exact preflightResumeTagStep_safe env tg r dir
    | false => rfl

theorem preflightAll_ops_safe (env : Env) (owner : String) (resume : Bool)
    (tg root : String) :
    ∀ list, ((preflightAll env owner resume tg root list).2).all opSafe = true := by
  intro list
  induction list with
  | nil => rfl
  | cons r rest ih =>
    simp only [preflightAll]
    rcases hpr : preflightRepo env owner resume tg r (root ++ "/" ++ r) with
      ⟨res, tr⟩
    have htr : tr.all opSafe = true := by
      have h0 := preflightRepo_ops_safe env owner resume tg r (root ++ "/" ++ r)
      rw [hpr] at h0
      exact h0
    cases res with
    | error e => simpa using htr
    | ok b =>
      rcases hall : preflightAll env owner resume tg root rest with ⟨res2, tr2⟩
      have h2 : tr2.all opSafe = true := by
        rw [hall] at ih
        exact ih
      cases res2 with
      | error e => simp [List.all_append, htr, h2]
      | ok snap => simp [List.all_append, htr, h2]

theorem preflightAll_no_mut (env : Env) (owner : String) (resume : Bool)
    (tg root : String) (list : List String) :
    ((preflightAll env owner resume tg root list).2).filter isMutation = [] :=
  filter_eq_nil_of_all _ opSafe isMutation
    (preflightAll_ops_safe env owner resume tg root list) opSafe_mut

theorem preflightAll_no_gh (env : Env) (owner : String) (resume : Bool)
    (tg root : String) (list : List String) :
    ((preflightAll env owner resume tg root list).2).filter isGhCall = [] :=
  filter_eq_nil_of_all _ opSafe isGhCall
    (preflightAll_ops_safe env owner resume tg root list) opSafe_gh

theorem andThen_mem {α β : Type} (x : Except RunError α × List Op)
    (f : α → Except RunError β × List Op) (op : Op)
    (h : op ∈ (andThen x f).2) :
    op ∈ x.2 ∨ ∃ a, x.1 = .ok a ∧ op ∈ (f a).2 := by
  obtain ⟨res, tr⟩ := x
  cases res with
  | error e => exact Or.inl h
  | ok a =>
    simp only [andThen, List.mem_append] at h
    rcases h with h | h
    · exact Or.inl h
    · exact Or.inr ⟨a, rfl, h⟩

theorem applyAll_mem (env : Env) (dryRun g : Bool)
    (snap : List (String × Bool)) (tg ver root : String) :
    ∀ (list : List String) (op : Op),
      op ∈ (applyAll env dryRun g snap tg ver root list).2 →
      ∃ r ∈ list,
        op ∈ (applyRepo env dryRun g (snapLookup snap r) tg ver r
          (root ++ "/" ++ r)).2 := by
  intro list
  induction list with
  | nil => intro op h; simp [applyAll] at h
  | cons r rest ih =>
    intro op h
    simp only [applyAll] at h
    rcases andThen_mem _ _ op h with h1 | ⟨a, _, h2⟩
    · exact ⟨r, List.mem_cons_self _ _, h1⟩
    · obtain ⟨r2, hm, h3⟩ := ih op h2
      exact ⟨r2, List.mem_cons_of_mem _ hm, h3⟩

theorem applyCreateStep_mem_shape (env : Env) (tg r dir : String) (op : Op)
    (h : op ∈ (applyCreateStep env tg r dir).2) :
    op = .gitLocalTagQuery r tg ∨ op = Op.update "Creating annotated tag…" ∨
    op = .gitCreateTag r tg := by
  unfold applyCreateStep at h
  cases hl : (env.repoEnv r).localTag with
  | error e =>
    rw [hl] at h
    simp only [List.mem_singleton] at h
    exact Or.inl h
  | ok o =>
    cases o with
    | none =>
      rw [hl] at h
      simp only [List.mem_cons, List.mem_singleton, List.not_mem_nil,
        or_false] at h
      tauto
    | some c =>
      rw [hl] at h
      simp only [List.mem_singleton] at h
      exact Or.inl h

theorem applyTagStep_mem_shape (env : Env) (dryRun tagged : Bool)
    (tg r dir : String) (op : Op)
    (h : op ∈ (applyTagStep env dryRun tagged tg r dir).2) :
    (∃ b, op = Op.update b) ∨ op = .gitLocalTagQuery r tg ∨
    op = .gitCreateTag r tg ∨ op = .gitPushTag r tg := by
  unfold applyTagStep at h
  cases dryRun with
  | true =>
    cases tagged <;> simp only [List.mem_singleton, if_true, if_false,
      Bool.true_eq_false, Bool.false_eq_true] at h <;> exact Or.inl ⟨_, h⟩
  | false =>
    cases tagged with
    | true =>
      simp only [List.mem_singleton, if_true, if_false, Bool.true_eq_false,
        Bool.false_eq_true] at h
      exact Or.inl ⟨_, h⟩
    | false =>
      simp only [if_false, Bool.false_eq_true] at h
      rcases andThen_mem _ _ op h with h1 | ⟨a, _, h2⟩
      · rcases applyCreateStep_mem_shape env tg r dir op h1 with h3 | h3 | h3
        · exact Or.inr (Or.inl h3)
        · exact Or.inl ⟨_, h3⟩
        · exact Or.inr (Or.inr (Or.inl h3))
      · unfold applyPushStep at h2
        simp only [List.mem_cons, List.mem_singleton, List.not_mem_nil,
          or_false] at h2
        rcases h2 with h2 | h2
        · exact Or.inl ⟨_, h2⟩
        · exact Or.inr (Or.inr (Or.inr h2))

theorem applyAssetsStep_mem_shape (env : Env) (dryRun g : Bool)
    (tg ver r : String) (op : Op)
    (h : op ∈ (applyAssetsStep env dryRun g tg ver r).2) :
    (∃ t b, op = Op.step t b) ∨ (∃ b, op = Op.update b) ∨
    op = .ghWaitAssets r tg (expectedAssets r ver) := by
  unfold applyAssetsStep at h
  cases he : (expectedAssets r ver).isEmpty with
  | true => simp [he] at h
  | false =>
    cases dryRun with
    | true =>
      simp only [he, if_false, if_true, Bool.false_eq_true,
        List.mem_singleton] at h
      exact Or.inr (Or.inl ⟨_, h⟩)
    | false =>
      cases g with
      | true =>
        simp only [he, if_false, if_true, Bool.false_eq_true,
          List.mem_cons, List.mem_singleton, List.not_mem_nil, or_false] at h
        rcases h with h | h
        · exact Or.inl ⟨_, _, h⟩
        · exact Or.inr (Or.inr h)
      | false => simp [he] at h

theorem applyRepo_mem_shape (env : Env) (dryRun g tagged : Bool)
    (tg ver r dir : String) (op : Op)
    (h : op ∈ (applyRepo env dryRun g tagged tg ver r dir).2) :
    (∃ t b, op = Op.step t b) ∨ (∃ b, op = Op.update b) ∨
    op = .gitLocalTagQuery r tg ∨ op = .gitCreateTag r tg ∨
    op = .gitPushTag r tg ∨ op = .ghWaitAssets r tg (expectedAssets r ver) := by
  unfold applyRepo at h
  rcases andThen_mem _ _ op h with h1 | ⟨a, _, h2⟩
  · simp only [List.mem_singleton] at h1
    exact Or.inl ⟨_, _, h1⟩
  · rcases andThen_mem _ _ op h2 with h3 | ⟨b, _, h4⟩
    · rcases applyTagStep_mem_shape env dryRun tagged tg r dir op h3 with
        h5 | h5 | h5 | h5
      · exact Or.inr (Or.inl h5)
      · exact Or.inr (Or.inr (Or.inl h5))
      · exact Or.inr (Or.inr (Or.inr (Or.inl h5)))
      · exact Or.inr (Or.inr (Or.inr (Or.inr (Or.inl h5))))
    · rcases applyAssetsStep_mem_shape env dryRun g tg ver r op h4 with
        h5 | h5 | h5
      · exact Or.inl h5
      · exact Or.inr (Or.inl h5)
      · exact Or.inr (Or.inr (Or.inr (Or.inr (Or.inr h5))))

theorem applyAssetsStep_no_mut (env : Env) (dryRun g : Bool)
    (tg ver r : String) :
    ((applyAssetsStep env dryRun g tg ver r).2).all
      (fun op => !isMutation op) = true := by
  unfold applyAssetsStep
  cases he : (expectedAssets r ver).isEmpty <;>
    cases dryRun <;> cases g <;> simp [he, isMutation]

theorem applyRepo_tagged_no_mut (env : Env) (dryRun g : Bool)
    (tg ver r dir : String) :
    ((applyRepo env dryRun g true tg ver r dir).2).filter isMutation = [] := by
  refine filter_eq_nil_of_all _ (fun op => !isMutation op) isMutation ?_
    (fun op h => by simpa using h)
  unfold applyRepo
  refine andThen_all _ _ _ rfl (fun _ => ?_)
  refine andThen_all _ _ _ ?_ (fun _ => applyAssetsStep_no_mut env dryRun g tg ver r)
  unfold applyTagStep
  cases dryRun <;> rfl

theorem applyAll_no_remote_query (env : Env) (dryRun g : Bool)
    (snap : List (String × Bool)) (tg ver root : String)
    (list : List String) :
    ((applyAll env dryRun g snap tg ver root list).2).filter
      isRemoteTagQuery = [] := by
  rw [List.filter_eq_nil_iff]
  intro op hop
  obtain ⟨r, _, hmem⟩ := applyAll_mem env dryRun g snap tg ver root list op hop
  rcases applyRepo_mem_shape env dryRun g (snapLookup snap r) tg ver r
      (root ++ "/" ++ r) op hmem with
    ⟨t, b, rfl⟩ | ⟨b, rfl⟩ | rfl | rfl | rfl | rfl <;>
    simp [isRemoteTagQuery]

theorem applyAll_mut_snapshot (env : Env) (dryRun g : Bool)
    (snap : List (String × Bool)) (tg ver root : String)
    (list : List String) (r t : String)
    (h : Op.gitCreateTag r t ∈
        (applyAll env dryRun g snap tg ver root list).2 ∨
      Op.gitPushTag r t ∈ (applyAll env dryRun g snap tg ver root list).2) :
    snapLookup snap r = false := by
  cases hs : snapLookup snap r with
  | false => rfl
  | true =>
    exfalso
    rcases h with h | h
    · obtain ⟨r0, _, hmem⟩ :=
        applyAll_mem env dryRun g snap tg ver root list _ h
      rcases applyRepo_mem_shape env dryRun g (snapLookup snap r0) tg ver r0
          (root ++ "/" ++ r0) _ hmem with
        ⟨a, b, hop⟩ | ⟨b, hop⟩ | hop | hop | hop | hop
      · exact absurd hop (by simp)
      · exact absurd hop (by simp)
      · exact absurd hop (by simp)
      · injection hop with h1 h2
        subst h1
        rw [hs] at hmem
        have hnil := applyRepo_tagged_no_mut env dryRun g tg ver r
          (root ++ "/" ++ r)
        exact (List.filter_eq_nil_iff.mp hnil) _ hmem (by simp [isMutation])
      · exact absurd hop (by simp)
      · exact absurd hop (by simp)
    · obtain ⟨r0, _, hmem⟩ :=
        applyAll_mem env dryRun g snap tg ver root list _ h
      rcases applyRepo_mem_shape env dryRun g (snapLookup snap r0) tg ver r0
          (root ++ "/" ++ r0) _ hmem with
        ⟨a, b, hop⟩ | ⟨b, hop⟩ | hop | hop | hop | hop
      · exact absurd hop (by simp)
      · exact absurd hop (by simp)
      · exact absurd hop (by simp)
      · exact absurd hop (by simp)
      · injection hop with h1 h2
        subst h1
        rw [hs] at hmem
        have hnil := applyRepo_tagged_no_mut env dryRun g tg ver r
          (root ++ "/" ++ r)
        exact (List.filter_eq_nil_iff.mp hnil) _ hmem (by simp [isMutation])
      · exact absurd hop (by simp)

/-- Claim C5: the already-tagged-remotely boolean recorded during
preflight is the only source the apply phase consults for the skip
decision: the apply phase issues no remote-tag-existence query at
all, and a tag create or tag push for repository `r` occurs only when
the preflight snapshot records `false` for `r` (equivalently, a
snapshot value of `true` forces the skip). -/
theorem c5_apply_consults_only_snapshot (env : Env) (args : ReleaseIsoArgs)
    (tg ver root : String) (snap : List (String × Bool))
    (hv : parseAndNormalizeVersion args.version = Except.ok (tg, ver))
    (hr : resolvedRoot env args = Except.ok root)
    (hp : (preflightAll env args.owner args.resume tg root reposInOrder).1 =
      Except.ok snap) :
    ((applyAll env args.dryRun (ghAvail env args) snap tg ver root
        reposInOrder).2).filter isRemoteTagQuery = [] ∧
    ∀ r t,
      (Op.gitCreateTag r t ∈
          (applyAll env args.dryRun (ghAvail env args) snap tg ver root
            reposInOrder).2 ∨
        Op.gitPushTag r t ∈
          (applyAll env args.dryRun (ghAvail env args) snap tg ver root
            reposInOrder).2) →
      snapLookup snap r = false :=
  ⟨applyAll_no_remote_query env args.dryRun (ghAvail env args) snap tg ver
      root reposInOrder,
    fun r t h =>
      applyAll_mut_snapshot env args.dryRun (ghAvail env args) snap tg ver
        root reposInOrder r t h⟩

/-- An environment in which every check passes and nothing is tagged
yet: every collaborator call succeeds, every directory exists, the
worktrees are clean and synced, no local or remote tag exists. -/
def goodRepoEnv (r : String) : RepoEnv :=
  { originUrl := .ok ("https://github.com/Truthdb/" ++ r)
    fetchResult := .ok ()
    remoteTag := .ok none
    worktreeStatus := .ok ""
    branchSync := .ok "main"
    localTag := .ok none
    headCommit := .ok "abc"
    tagAbsent := .ok ()
    createTag := .ok ()
    pushTag := .ok ()
    waitAssets := .ok () }

def envGood : Env :=
  { repoEnv := goodRepoEnv
    token := "tok"
    cwd := "/w"
    cwdParent := none
    isDir := fun _ => true }

def argsLive : ReleaseIsoArgs :=
  { version := "2.0.0"
    reposRoot := some "/r"
    owner := "Truthdb"
    dryRun := false
    resume := false }

/-- The snapshot the good environment produces: nothing tagged. -/
def snapAllFalse : List (String × Bool) :=
  [("installer-kernel", false), ("installer", false), ("truthdb", false),
   ("truthdb-cli", false), ("truthdb-net", false), ("truthdb-proto", false),
   ("installer-iso", false)]

theorem c5_apply_consults_only_snapshot_witness :
    parseAndNormalizeVersion argsLive.version =
      Except.ok ("v2.0.0", "2.0.0") ∧
    resolvedRoot envGood argsLive = Except.ok "/r" ∧
    (preflightAll envGood argsLive.owner argsLive.resume "v2.0.0" "/r"
        reposInOrder).1 = Except.ok snapAllFalse ∧
    (((applyAll envGood argsLive.dryRun (ghAvail envGood argsLive)
        snapAllFalse "v2.0.0" "2.0.0" "/r" reposInOrder).2).filter
          isRemoteTagQuery = [] ∧
      ∀ r t,
        (Op.gitCreateTag r t ∈
            (applyAll envGood argsLive.dryRun (ghAvail envGood argsLive)
              snapAllFalse "v2.0.0" "2.0.0" "/r" reposInOrder).2 ∨
          Op.gitPushTag r t ∈
            (applyAll envGood argsLive.dryRun (ghAvail envGood argsLive)
              snapAllFalse "v2.0.0" "2.0.0" "/r" reposInOrder).2) →
        snapLookup snapAllFalse r = false) :=
  ⟨by decide, by decide, by decide,
    c5_apply_consults_only_snapshot envGood argsLive "v2.0.0" "2.0.0" "/r"
      snapAllFalse (by decide) (by decide) (by decide)⟩

/-! ## Characters of canonical versions and Debug-formatted names

These lemmas establish that every expected asset filename appears
verbatim inside the dry-run narration message: the canonical version
rendering consists of SemVer characters, none of which the Rust
`Debug` formatter escapes, so each quoted filename contains the raw
filename as a contiguous substring. -/

/-- The characters a canonical SemVer rendering can contain. -/
def semverChar (c : Char) : Bool :=
  c.isAlphanum || c == '.' || c == '-' || c == '+'

/-- Characters the Rust `Debug` string formatter leaves unescaped
(within the printable-ASCII scope of this repository). -/
def debugPlainChar (c : Char) : Bool :=
  !(c == '"' || c == '\\' || c == '\n' || c == '\r' || c == '\t')

theorem debugPlain_of_ne (c : Char) (h1 : c ≠ '"') (h2 : c ≠ '\\')
    (h3 : c ≠ '\n') (h4 : c ≠ '\r') (h5 : c ≠ '\t') :
    debugPlainChar c = true := by
  simp [debugPlainChar, h1, h2, h3, h4, h5]

theorem semverChar_debugPlain (c : Char) (h : semverChar c = true) :
    debugPlainChar c = true := by
  simp only [semverChar, Bool.or_eq_true, beq_iff_eq] at h
  rcases h with ((ha | h) | h) | h
  · refine debugPlain_of_ne c ?_ ?_ ?_ ?_ ?_ <;>
      (intro heq; subst heq; exact absurd ha (by decide))
  · subst h; decide
  · subst h; decide
  · subst h; decide

theorem isIdentCh_semverChar (c : Char) (h : isIdentCh c = true) :
    semverChar c = true := by
  simp only [isIdentCh, Bool.or_eq_true] at h
  rcases h with h | h <;> simp [semverChar, h]

theorem all_imp (l : List Char) (p q : Char → Bool)
    (h : l.all p = true) (hpq : ∀ c, p c = true → q c = true) :
    l.all q = true :=
  List.all_eq_true.mpr fun c hc => hpq c (List.all_eq_true.mp h c hc)

theorem digitChar10_semverChar (n : Nat) :
    semverChar (digitChar10 n) = true := by
  unfold digitChar10
  split <;> decide

theorem natDigitsAux_chars :
    ∀ fuel n, (natDigitsAux fuel n).all semverChar = true := by
  intro fuel
  induction fuel with
  | zero => intro n; rfl
  | succ f ih =>
    intro n
    unfold natDigitsAux
    by_cases hn : n < 10
    · simp [hn, digitChar10_semverChar]
    · simp [hn, List.all_append, ih (n / 10), digitChar10_semverChar]

theorem joinDots_chars :
    ∀ ids : List (List Char), (∀ id ∈ ids, id.all isIdentCh = true) →
      (joinDots ids).all semverChar = true := by
  intro ids
  induction ids with
  | nil => intro _; rfl
  | cons x t ih =>
    intro hall
    cases t with
    | nil =>
      have hx := hall x (List.mem_cons_self _ _)
      simpa [joinDots] using
        all_imp x isIdentCh semverChar hx isIdentCh_semverChar
    | cons y t2 =>
      have hx := hall x (List.mem_cons_self _ _)
      have hrest := ih (fun id hid => hall id (List.mem_cons_of_mem _ hid))
      simp only [joinDots, List.all_append, List.all_cons, Bool.and_eq_true]
      exact ⟨all_imp x isIdentCh semverChar hx isIdentCh_semverChar,
        by decide, hrest⟩

theorem parsePreIds_chars (pp : Option (List Char)) (pre : List (List Char))
    (h : parsePreIds pp = some pre) :
    ∀ id ∈ pre, id.all isIdentCh = true := by
  cases pp with
  | none =>
    simp only [parsePreIds, Option.some.injEq] at h
    subst h
    intro id hid
    simp at hid
  | some p =>
    simp only [parsePreIds] at h
    split at h
    · rename_i hall
      obtain rfl := Option.some.injEq .. ▸ h
      · intro id hid
        have hv := List.all_eq_true.mp hall id hid
        simp only [validPreIdent, Bool.and_eq_true] at hv
        exact hv.1.2
    · exact absurd h (by simp)

theorem parseBuildIds_chars (bp : Option (List Char))
    (build : List (List Char)) (h : parseBuildIds bp = some build) :
    ∀ id ∈ build, id.all isIdentCh = true := by
  cases bp with
  | none =>
    simp only [parseBuildIds, Option.some.injEq] at h
    subst h
    intro id hid
    simp at hid
  | some b =>
    simp only [parseBuildIds] at h
    split at h
    · rename_i hall
      obtain rfl := Option.some.injEq .. ▸ h
      · intro id hid
        have hv := List.all_eq_true.mp hall id hid
        simp only [validBuildIdent, Bool.and_eq_true] at hv
        exact hv.2
    · exact absurd h (by simp)

theorem renderVerChars_chars (v : SemVer)
    (hpre : ∀ id ∈ v.pre, id.all isIdentCh = true)
    (hbuild : ∀ id ∈ v.build, id.all isIdentCh = true) :
    (renderVerChars v).all semverChar = true := by
  unfold renderVerChars natDigits
  simp only [List.all_append, List.all_cons, Bool.and_eq_true]
  refine ⟨⟨⟨⟨natDigitsAux_chars _ _, by decide, natDigitsAux_chars _ _⟩,
    by decide, natDigitsAux_chars _ _⟩, ?_⟩, ?_⟩
  · cases hv : v.pre with
    | nil => rfl
    | cons x t =>
      show (('-' :: joinDots (x :: t)).all semverChar) = true
      simp only [List.all_cons, Bool.and_eq_true]
      exact ⟨by decide,
        joinDots_chars (x :: t) (fun id hid => hpre id (by rw [hv]; exact hid))⟩
  · cases hv : v.build with
    | nil => rfl
    | cons x t =>
      show (('+' :: joinDots (x :: t)).all semverChar) = true
      simp only [List.all_cons, Bool.and_eq_true]
      exact ⟨by decide,
        joinDots_chars (x :: t)
          (fun id hid => hbuild id (by rw [hv]; exact hid))⟩

theorem parseSemVer_ident_chars (s : String) (v : SemVer)
    (h : parseSemVer s = some v) :
    (∀ id ∈ v.pre, id.all isIdentCh = true) ∧
    (∀ id ∈ v.build, id.all isIdentCh = true) := by
  simp only [parseSemVer] at h
  repeat' split at h
  all_goals
    first
      | exact Option.noConfusion h
      | · injection h with h1
          subst h1
          exact ⟨parsePreIds_chars _ _ (by assumption),
            parseBuildIds_chars _ _ (by assumption)⟩

theorem parseAndNormalizeVersion_chars (input tg ver : String)
    (h : parseAndNormalizeVersion input = Except.ok (tg, ver)) :
    ver.data.all semverChar = true := by
  simp only [parseAndNormalizeVersion] at h
  repeat' split at h
  all_goals
    first
      | exact Except.noConfusion h
      | · simp only [Except.ok.injEq, Prod.mk.injEq] at h
          obtain ⟨-, rfl⟩ := h
          rename_i v hv
          obtain ⟨hpre, hbuild⟩ := parseSemVer_ident_chars _ _ hv
          exact renderVerChars_chars v hpre hbuild

theorem escapeDebugChar_plain (c : Char) (h : debugPlainChar c = true) :
    escapeDebugChar c = [c] := by
  have h1 : c ≠ '"' := by
    intro he; subst he; exact absurd h (by decide)
  have h2 : c ≠ '\\' := by
    intro he; subst he; exact absurd h (by decide)
  have h3 : c ≠ '\n' := by
    intro he; subst he; exact absurd h (by decide)
  have h4 : c ≠ '\r' := by
    intro he; subst he; exact absurd h (by decide)
  have h5 : c ≠ '\t' := by
    intro he; subst he; exact absurd h (by decide)
  unfold escapeDebugChar
  rw [if_neg h1, if_neg h2, if_neg h3, if_neg h4, if_neg h5]

theorem flatMap_escape_id :
    ∀ l : List Char, (∀ c ∈ l, debugPlainChar c = true) →
      l.flatMap escapeDebugChar = l := by
  intro l
  induction l with
  | nil => intro _; rfl
  | cons c t ih =>
    intro h
    simp only [List.flatMap_cons]
    rw [escapeDebugChar_plain c (h c (List.mem_cons_self _ _)),
      ih (fun x hx => h x (List.mem_cons_of_mem _ hx))]
    rfl

theorem debugStr_plain (s : String) (h : s.data.all debugPlainChar = true) :
    debugStr s = '"' :: (s.data ++ ['"']) := by
  unfold debugStr
  rw [flatMap_escape_id s.data (List.all_eq_true.mp h)]

theorem joinCommaSp_mem_decomp :
    ∀ (names : List String) (name : String), name ∈ names →
      name.data.all debugPlainChar = true →
      ∃ p q, joinCommaSp (names.map debugStr) = p ++ (name.data ++ q) := by
  intro names
  induction names with
  | nil => intro name h; exact absurd h (by simp)
  | cons x t ih =>
    intro name hmem hplain
    rcases List.mem_cons.mp hmem with rfl | hmem2
    · cases t with
      | nil =>
        refine ⟨['"'], ['"'], ?_⟩
        simp only [List.map, joinCommaSp]
        rw [debugStr_plain name hplain]
        simp
      | cons y t2 =>
        refine ⟨['"'],
          '"' :: ',' :: ' ' :: joinCommaSp ((y :: t2).map debugStr), ?_⟩
        simp only [List.map, joinCommaSp]
        rw [debugStr_plain name hplain]
        simp
    · cases t with
      | nil => exact absurd hmem2 (by simp)
      | cons y t2 =>
        obtain ⟨p, q, hpq⟩ := ih name hmem2 hplain
        refine ⟨debugStr x ++ ',' :: ' ' :: p, q, ?_⟩
        simp only [List.map, joinCommaSp] at hpq ⊢
        rw [hpq]
        simp [List.append_assoc]

theorem wouldWaitMsg_contains_name (r : String) (expected : List String)
    (name : String) (hmem : name ∈ expected)
    (hplain : name.data.all debugPlainChar = true) :
    ∃ p q, (wouldWaitMsg r expected).data = p ++ (name.data ++ q) := by
  obtain ⟨p, q, hpq⟩ := joinCommaSp_mem_decomp expected name hmem hplain
  refine ⟨("[" ++ r ++ "] (dry-run) would wait for assets: ").data ++
    '[' :: p, q ++ [']'], ?_⟩
  show (("[" ++ r ++ "] (dry-run) would wait for assets: ").data ++
    (debugListFmt expected).data) = _
  show (("[" ++ r ++ "] (dry-run) would wait for assets: ").data ++
    ('[' :: (joinCommaSp (expected.map debugStr) ++ [']']))) = _
  rw [hpq]
  simp [List.append_assoc]

theorem expectedAssets_plain (r ver name : String)
    (hver : ver.data.all debugPlainChar = true)
    (hmem : name ∈ expectedAssets r ver) :
    name.data.all debugPlainChar = true := by
  unfold expectedAssets at hmem
  split at hmem <;>
    simp only [List.mem_cons, List.mem_singleton, List.not_mem_nil,
      or_false] at hmem
  · subst hmem; decide
  all_goals
    rcases hmem with rfl | rfl <;>
      (simp only [String.data_append, List.all_append, Bool.and_eq_true]
       exact ⟨⟨by decide, hver⟩, by decide⟩)

/-! Equations for each outcome of `runRelease`. -/

theorem runRelease_version_error (env : Env) (args : ReleaseIsoArgs)
    (e : VersionError)
    (hv : parseAndNormalizeVersion args.version = Except.error e) :
    runRelease env args = (.error (.invalidVersion e), []) := by
  unfold runRelease
  rw [hv]

theorem runRelease_root_error (env : Env) (args : ReleaseIsoArgs)
    (tg ver : String) (e : RunError)
    (hv : parseAndNormalizeVersion args.version = Except.ok (tg, ver))
    (hr : resolvedRoot env args = Except.error e) :
    runRelease env args =
      (.error e,
        [Op.step "Initialize" (initBody ver tg args.dryRun args.resume)]) := by
  unfold runRelease
  rw [hv]
  simp only
  rw [hr]

theorem runRelease_preflight_error (env : Env) (args : ReleaseIsoArgs)
    (tg ver root : String) (e : RunError) (ptr : List Op)
    (hv : parseAndNormalizeVersion args.version = Except.ok (tg, ver))
    (hr : resolvedRoot env args = Except.ok root)
    (hpp : preflightAll env args.owner args.resume tg root reposInOrder =
      (Except.error e, ptr)) :
    runRelease env args = (.error e, preTrace args tg ver root ++ ptr) := by
  unfold runRelease
  rw [hv]
  simp only
  rw [hr]
  simp only
  rw [hpp]

theorem runRelease_token_error (env : Env) (args : ReleaseIsoArgs)
    (tg ver root : String) (snap : List (String × Bool)) (ptr : List Op)
    (hv : parseAndNormalizeVersion args.version = Except.ok (tg, ver))
    (hr : resolvedRoot env args = Except.ok root)
    (hpp : preflightAll env args.owner args.resume tg root reposInOrder =
      (Except.ok snap, ptr))
    (htok : (!args.dryRun && env.token == "") = true) :
    runRelease env args =
      (.error .missingToken, preTrace args tg ver root ++ ptr) := by
  unfold runRelease
  rw [hv]
  simp only
  rw [hr]
  simp only
  rw [hpp]
  simp only [htok, if_true]

theorem runRelease_apply_error (env : Env) (args : ReleaseIsoArgs)
    (tg ver root : String) (snap : List (String × Bool)) (ptr atr : List Op)
    (e : RunError)
    (hv : parseAndNormalizeVersion args.version = Except.ok (tg, ver))
    (hr : resolvedRoot env args = Except.ok root)
    (hpp : preflightAll env args.owner args.resume tg root reposInOrder =
      (Except.ok snap, ptr))
    (htok : (!args.dryRun && env.token == "") = false)
    (happ : applyAll env args.dryRun (ghAvail env args) snap tg ver root
      reposInOrder = (Except.error e, atr)) :
    runRelease env args = (.error e, preTrace args tg ver root ++ ptr ++ atr) := by
  unfold runRelease
  rw [hv]
  simp only
  rw [hr]
  simp only
  rw [hpp]
  simp only [htok, Bool.false_eq_true, if_false]
  rw [happ]

theorem runRelease_apply_ok (env : Env) (args : ReleaseIsoArgs)
    (tg ver root : String) (snap : List (String × Bool)) (ptr atr : List Op)
    (hv : parseAndNormalizeVersion args.version = Except.ok (tg, ver))
    (hr : resolvedRoot env args = Except.ok root)
    (hpp : preflightAll env args.owner args.resume tg root reposInOrder =
      (Except.ok snap, ptr))
    (htok : (!args.dryRun && env.token == "") = false)
    (happ : applyAll env args.dryRun (ghAvail env args) snap tg ver root
      reposInOrder = (Except.ok (), atr)) :
    runRelease env args =
      (.ok (), preTrace args tg ver root ++ ptr ++ atr ++ finalOps tg) := by
  unfold runRelease
  rw [hv]
  simp only
  rw [hr]
  simp only
  rw [hpp]
  simp only [htok, Bool.false_eq_true, if_false]
  rw [happ]

/-- In dry-run mode the apply body only narrates: a Tagging step, the
dry-run tagging message, and - when assets are expected - the
would-wait message naming them. -/
theorem applyRepo_dry_trace (env : Env) (g tagged : Bool)
    (tg ver r dir : String) :
    applyRepo env true g tagged tg ver r dir =
      (.ok (),
        [Op.step ("Tagging [" ++ r ++ "]") ("tag=" ++ tg),
         Op.update (if tagged then dryRunSkipMsg r else dryRunWouldTagMsg r)] ++
        (if (expectedAssets r ver).isEmpty then []
         else [Op.update (wouldWaitMsg r (expectedAssets r ver))])) := by
  unfold applyRepo applyTagStep applyAssetsStep andThen
  cases tagged <;> cases he : (expectedAssets r ver).isEmpty <;> simp [he]

theorem dryTrace_filter_safe (tagged : Bool) (tg ver r : String)
    (p : Op → Bool) (hstep : ∀ t b, p (Op.step t b) = false)
    (hupd : ∀ b, p (Op.update b) = false) :
    (([Op.step ("Tagging [" ++ r ++ "]") ("tag=" ++ tg),
       Op.update (if tagged then dryRunSkipMsg r else dryRunWouldTagMsg r)] ++
      (if (expectedAssets r ver).isEmpty then []
       else [Op.update (wouldWaitMsg r (expectedAssets r ver))])).filter p) =
      [] := by
  cases he : (expectedAssets r ver).isEmpty <;> cases tagged <;>
    simp [List.filter_append, List.filter, hstep, hupd, he]

theorem applyAll_dry (env : Env) (g : Bool) (snap : List (String × Bool))
    (tg ver root : String) :
    ∀ list : List String,
      (applyAll env true g snap tg ver root list).1 = .ok () ∧
      ((applyAll env true g snap tg ver root list).2).filter isMutation = [] ∧
      ((applyAll env true g snap tg ver root list).2).filter isGhCall = [] ∧
      ∀ r ∈ list, (expectedAssets r ver).isEmpty = false →
        Op.update (wouldWaitMsg r (expectedAssets r ver)) ∈
          (applyAll env true g snap tg ver root list).2 := by
  intro list
  induction list with
  | nil => exact ⟨rfl, rfl, rfl, by simp⟩
  | cons r rest ih =>
    obtain ⟨ihok, ihmut, ihgh, ihmem⟩ := ih
    simp only [applyAll]
    rw [applyRepo_dry_trace env g (snapLookup snap r) tg ver r
      (root ++ "/" ++ r)]
    simp only [andThen]
    refine ⟨ihok, ?_, ?_, ?_⟩
    · rw [List.filter_append, ihmut,
        dryTrace_filter_safe (snapLookup snap r) tg ver r isMutation
          (fun _ _ => rfl) (fun _ => rfl)]
      rfl
    · rw [List.filter_append, ihgh,
        dryTrace_filter_safe (snapLookup snap r) tg ver r isGhCall
          (fun _ _ => rfl) (fun _ => rfl)]
      rfl
    · intro r2 hr2 hne
      rcases List.mem_cons.mp hr2 with rfl | hr3
      · refine List.mem_append_left _ ?_
        rw [hne]
        simp
      · exact List.mem_append_right _ (ihmem r2 hr3 hne)

/-- Every repository in the release order has a nonempty
expected-asset mapping. -/
theorem reposInOrder_expected_nonempty (ver : String) :
    ∀ r ∈ reposInOrder, (expectedAssets r ver).isEmpty = false := by
  intro r hr
  simp only [reposInOrder, List.mem_cons, List.mem_singleton,
    List.not_mem_nil, or_false] at hr
  rcases hr with rfl | rfl | rfl | rfl | rfl | rfl | rfl <;> rfl

/-- Claim C6: every dry run that passes preflight performs zero
mutating version-control calls and zero hosting-service calls,
succeeds, and its narration names every expected asset filename for
each repository that has an expected-asset mapping (the would-wait
message carries the full expected list, and each filename occurs
verbatim inside it). -/
theorem c6_dry_run (env : Env) (args : ReleaseIsoArgs)
    (tg ver root : String) (snap : List (String × Bool))
    (hd : args.dryRun = true)
    (hv : parseAndNormalizeVersion args.version = Except.ok (tg, ver))
    (hr : resolvedRoot env args = Except.ok root)
    (hp : (preflightAll env args.owner args.resume tg root reposInOrder).1 =
      Except.ok snap) :
    (runRelease env args).1 = .ok () ∧
    ((runRelease env args).2).filter isMutation = [] ∧
    ((runRelease env args).2).filter isGhCall = [] ∧
    ∀ r ∈ reposInOrder, expectedAssets r ver ≠ [] →
      Op.update (wouldWaitMsg r (expectedAssets r ver)) ∈
        (runRelease env args).2 ∧
      ∀ name ∈ expectedAssets r ver,
        ∃ p q, (wouldWaitMsg r (expectedAssets r ver)).data =
          p ++ (name.data ++ q) := by
  rcases hpair : preflightAll env args.owner args.resume tg root reposInOrder
    with ⟨pres, ptr⟩
  have hpres : pres = Except.ok snap := by rw [hpair] at hp; exact hp
  subst hpres
  obtain ⟨aok, amut, agh, amem⟩ :=
    applyAll_dry env (ghAvail env args) snap tg ver root reposInOrder
  rcases hap : applyAll env true (ghAvail env args) snap tg ver root
    reposInOrder with ⟨ares, atr⟩
  rw [hap] at aok amut agh amem
  have hares : ares = .ok () := aok
  subst hares
  have htok : (!args.dryRun && env.token == "") = false := by rw [hd]; rfl
  have happ : applyAll env args.dryRun (ghAvail env args) snap tg ver root
      reposInOrder = (.ok (), atr) := by rw [hd]; exact hap
  have hrun := runRelease_apply_ok env args tg ver root snap ptr atr hv hr
    hpair htok happ
  have hptrmut : ptr.filter isMutation = [] := by
    have h0 := preflightAll_no_mut env args.owner args.resume tg root
      reposInOrder
    rw [hpair] at h0; exact h0
  have hptrgh : ptr.filter isGhCall = [] := by
    have h0 := preflightAll_no_gh env args.owner args.resume tg root
      reposInOrder
    rw [hpair] at h0; exact h0
  rw [hrun]
  refine ⟨rfl, ?_, ?_, ?_⟩
  · simp only [List.filter_append, hptrmut, amut]
    simp [preTrace, finalOps, isMutation]
  · simp only [List.filter_append, hptrgh, agh]
    simp [preTrace, finalOps, isGhCall]
  · intro r hrmem hne
    have hne2 : (expectedAssets r ver).isEmpty = false := by
      cases hq : expectedAssets r ver with
      | nil => exact absurd hq hne
      | cons x t => rfl
    constructor
    · have hm := amem r hrmem hne2
      exact List.mem_append_left _ (List.mem_append_right _ hm)
    · intro name hname
      refine wouldWaitMsg_contains_name r _ name hname ?_
      have hsem := parseAndNormalizeVersion_chars args.version tg ver hv
      have hverplain : ver.data.all debugPlainChar = true :=
        all_imp _ _ _ hsem semverChar_debugPlain
      exact expectedAssets_plain r ver name hverplain hname

def argsDry : ReleaseIsoArgs :=
  { version := "2.0.0"
    reposRoot := some "/r"
    owner := "Truthdb"
    dryRun := true
    resume := false }

theorem c6_dry_run_witness :
    argsDry.dryRun = true ∧
    parseAndNormalizeVersion argsDry.version =
      Except.ok ("v2.0.0", "2.0.0") ∧
    resolvedRoot envGood argsDry = Except.ok "/r" ∧
    (preflightAll envGood argsDry.owner argsDry.resume "v2.0.0" "/r"
        reposInOrder).1 = Except.ok snapAllFalse ∧
    ((runRelease envGood argsDry).1 = .ok () ∧
      ((runRelease envGood argsDry).2).filter isMutation = [] ∧
      ((runRelease envGood argsDry).2).filter isGhCall = [] ∧
      ∀ r ∈ reposInOrder, expectedAssets r "2.0.0" ≠ [] →
        Op.update (wouldWaitMsg r (expectedAssets r "2.0.0")) ∈
          (runRelease envGood argsDry).2 ∧
        ∀ name ∈ expectedAssets r "2.0.0",
          ∃ p q, (wouldWaitMsg r (expectedAssets r "2.0.0")).data =
            p ++ (name.data ++ q)) :=
  ⟨rfl, by decide, by decide, by decide,
    c6_dry_run envGood argsDry "v2.0.0" "2.0.0" "/r" snapAllFalse rfl
      (by decide) (by decide) (by decide)⟩

/-! Resume against a fully-tagged remote (claim C7). -/

theorem preflightRepo_resume_tagged (env : Env) (owner tg r dir : String)
    (hdir : env.isDir dir = true)
    (hurl : ∃ u, (env.repoEnv r).originUrl = Except.ok u ∧
      strContains (strToLower u) (strToLower (owner ++ "/" ++ r)) = true)
    (hf : (env.repoEnv r).fetchResult = .ok ())
    (ht : ∃ sha, (env.repoEnv r).remoteTag = .ok (some sha)) :
    preflightRepo env owner true tg r dir =
      (.ok true,
        [Op.step ("Preflight [" ++ r ++ "]") ("Checking repo at " ++ dir),
         Op.checkDir dir, Op.update "Verifying origin remote…",
         Op.gitOriginQuery r, Op.update "Fetching origin tags…",
         Op.gitFetch r, Op.update ("Checking remote tag " ++ tg ++ "…"),
         Op.gitRemoteTagQuery r tg]) := by
  obtain ⟨u, hu, hc⟩ := hurl
  obtain ⟨sha, hsha⟩ := ht
  unfold preflightRepo preflightDirStep preflightOriginStep
    preflightFetchStep preflightRemoteTagStep andThen
    ensureOriginMatchesExpected
  rw [hu, hf, hsha]
  simp [hdir, hc]

theorem preflightAll_resume_tagged_fst (env : Env) (owner tg root : String) :
    ∀ list : List String,
      (∀ r ∈ list,
        env.isDir (root ++ "/" ++ r) = true ∧
        (∃ u, (env.repoEnv r).originUrl = Except.ok u ∧
          strContains (strToLower u) (strToLower (owner ++ "/" ++ r)) = true) ∧
        (env.repoEnv r).fetchResult = .ok () ∧
        (∃ sha, (env.repoEnv r).remoteTag = .ok (some sha))) →
      (preflightAll env owner true tg root list).1 =
        Except.ok (list.map (fun r => (r, true))) := by
  intro list
  induction list with
  | nil => intro _; rfl
  | cons r rest ih =>
    intro hall
    obtain ⟨hdir, hurl, hf, ht⟩ := hall r (List.mem_cons_self _ _)
    have h1 := preflightRepo_resume_tagged env owner tg r (root ++ "/" ++ r)
      hdir hurl hf ht
    have h2 := ih (fun x hx => hall x (List.mem_cons_of_mem _ hx))
    simp only [preflightAll, h1]
    rcases hrest : preflightAll env owner true tg root rest with ⟨res2, tr2⟩
    rw [hrest] at h2
    simp only at h2
    subst h2
    simp

theorem snapLookup_map_true :
    ∀ (list : List String) (r : String), r ∈ list →
      snapLookup (list.map (fun x => (x, true))) r = true := by
  intro list
  induction list with
  | nil => intro r h; exact absurd h (by simp)
  | cons x t ih =>
    intro r hmem
    by_cases hrx : r = x
    · subst hrx
      simp [snapLookup, List.lookup]
    · rcases List.mem_cons.mp hmem with rfl | h3
      · exact absurd rfl hrx
      · have hne : (r == x) = false := beq_eq_false_iff_ne.mpr hrx
        simp only [List.map, snapLookup, List.lookup, hne]
        exact ih r h3

theorem applyRepo_tagged_live_ok (env : Env) (tg ver r dir : String)
    (hw : (env.repoEnv r).waitAssets = .ok ()) :
    (applyRepo env false true true tg ver r dir).1 = .ok () := by
  unfold applyRepo applyTagStep applyAssetsStep andThen
  cases he : (expectedAssets r ver).isEmpty <;> simp [he, hw]

theorem applyAll_tagged_ok (env : Env) (snap : List (String × Bool))
    (tg ver root : String) :
    ∀ list : List String,
      (∀ r ∈ list, snapLookup snap r = true) →
      (∀ r ∈ list, (env.repoEnv r).waitAssets = .ok ()) →
      (applyAll env false true snap tg ver root list).1 = .ok () ∧
      ((applyAll env false true snap tg ver root list).2).filter
        isMutation = [] := by
  intro list
  induction list with
  | nil => exact fun _ _ => ⟨rfl, rfl⟩
  | cons r rest ih =>
    intro hsnap hw
    obtain ⟨ihok, ihmut⟩ := ih (fun x hx => hsnap x (List.mem_cons_of_mem _ hx))
      (fun x hx => hw x (List.mem_cons_of_mem _ hx))
    simp only [applyAll, hsnap r (List.mem_cons_self _ _)]
    rcases har : applyRepo env false true true tg ver r (root ++ "/" ++ r)
      with ⟨ares, atr1⟩
    have hok := applyRepo_tagged_live_ok env tg ver r (root ++ "/" ++ r)
      (hw r (List.mem_cons_self _ _))
    rw [har] at hok
    simp only at hok
    subst hok
    have hmut1 : atr1.filter isMutation = [] := by
      have h0 := applyRepo_tagged_no_mut env false true tg ver r
        (root ++ "/" ++ r)
      rw [har] at h0
      exact h0
    simp only [andThen, List.filter_append, hmut1, ihmut]
    exact ⟨ihok, rfl⟩

/-- Claim C7: re-running with resume=true against unchanged remote
state - every repository already carries the target tag on the remote
and its release assets are present and stable (the asset wait
succeeds) - issues no tag-create or tag-push call for any repository
and terminates successfully. -/
theorem c7_resume_idempotent (env : Env) (args : ReleaseIsoArgs)
    (tg ver root : String)
    (hres : args.resume = true)
    (hdry : args.dryRun = false)
    (htok : (env.token == "") = false)
    (hv : parseAndNormalizeVersion args.version = Except.ok (tg, ver))
    (hr : resolvedRoot env args = Except.ok root)
    (hrepo : ∀ r ∈ reposInOrder,
      env.isDir (root ++ "/" ++ r) = true ∧
      (∃ u, (env.repoEnv r).originUrl = Except.ok u ∧
        strContains (strToLower u)
          (strToLower (args.owner ++ "/" ++ r)) = true) ∧
      (env.repoEnv r).fetchResult = .ok () ∧
      (∃ sha, (env.repoEnv r).remoteTag = .ok (some sha)) ∧
      (env.repoEnv r).waitAssets = .ok ()) :
    (runRelease env args).1 = .ok () ∧
    ((runRelease env args).2).filter isMutation = [] := by
  have hfst := preflightAll_resume_tagged_fst env args.owner tg root
    reposInOrder
    (fun r hrm => ⟨(hrepo r hrm).1, (hrepo r hrm).2.1, (hrepo r hrm).2.2.1,
      (hrepo r hrm).2.2.2.1⟩)
  rcases hpair : preflightAll env args.owner true tg root reposInOrder
    with ⟨pres, ptr⟩
  rw [hpair] at hfst
  simp only at hfst
  subst hfst
  have hgha : ghAvail env args = true := by simp [ghAvail, hdry, htok]
  obtain ⟨aok, amut⟩ := applyAll_tagged_ok env
    (reposInOrder.map (fun x => (x, true))) tg ver root reposInOrder
    (fun r hrm => snapLookup_map_true reposInOrder r hrm)
    (fun r hrm => (hrepo r hrm).2.2.2.2)
  rcases hap : applyAll env false true
      (reposInOrder.map (fun x => (x, true))) tg ver root reposInOrder
    with ⟨ares, atr⟩
  rw [hap] at aok amut
  simp only at aok
  subst aok
  have htok2 : (!args.dryRun && env.token == "") = false := by
    rw [hdry]
    simp only [Bool.not_false, Bool.true_and]
    exact htok
  have happ : applyAll env args.dryRun (ghAvail env args)
      (reposInOrder.map (fun x => (x, true))) tg ver root reposInOrder =
      (.ok (), atr) := by
    rw [hdry, hgha]
    exact hap
  have hpp : preflightAll env args.owner args.resume tg root reposInOrder =
      (Except.ok (reposInOrder.map (fun x => (x, true))), ptr) := by
    rw [hres]
    exact hpair
  have hrun := runRelease_apply_ok env args tg ver root _ ptr atr hv hr hpp
    htok2 happ
  rw [hrun]
  refine ⟨rfl, ?_⟩
  have hptr : ptr.filter isMutation = [] := by
    have h0 := preflightAll_no_mut env args.owner true tg root reposInOrder
    rw [hpair] at h0
    exact h0
  simp only [List.filter_append, hptr, amut]
  simp [preTrace, finalOps, isMutation]

/-- The good environment, except that every repository already
carries the target tag on the remote. -/
def taggedRepoEnv (r : String) : RepoEnv :=
  { goodRepoEnv r with remoteTag := .ok (some "abc") }

def envTagged : Env :=
  { envGood with repoEnv := taggedRepoEnv }

def argsResume : ReleaseIsoArgs :=
  { version := "2.0.0"
    reposRoot := some "/r"
    owner := "Truthdb"
    dryRun := false
    resume := true }

theorem c7_resume_idempotent_witness :
    argsResume.resume = true ∧ argsResume.dryRun = false ∧
    (envTagged.token == "") = false ∧
    parseAndNormalizeVersion argsResume.version =
      Except.ok ("v2.0.0", "2.0.0") ∧
    resolvedRoot envTagged argsResume = Except.ok "/r" ∧
    (∀ r ∈ reposInOrder,
      envTagged.isDir ("/r" ++ "/" ++ r) = true ∧
      (∃ u, (envTagged.repoEnv r).originUrl = Except.ok u ∧
        strContains (strToLower u)
          (strToLower (argsResume.owner ++ "/" ++ r)) = true) ∧
      (envTagged.repoEnv r).fetchResult = .ok () ∧
      (∃ sha, (envTagged.repoEnv r).remoteTag = .ok (some sha)) ∧
      (envTagged.repoEnv r).waitAssets = .ok ()) ∧
    ((runRelease envTagged argsResume).1 = .ok () ∧
      ((runRelease envTagged argsResume).2).filter isMutation = []) := by
  have hrepo : ∀ r ∈ reposInOrder,
      envTagged.isDir ("/r" ++ "/" ++ r) = true ∧
      (∃ u, (envTagged.repoEnv r).originUrl = Except.ok u ∧
        strContains (strToLower u)
          (strToLower (argsResume.owner ++ "/" ++ r)) = true) ∧
      (envTagged.repoEnv r).fetchResult = .ok () ∧
      (∃ sha, (envTagged.repoEnv r).remoteTag = .ok (some sha)) ∧
      (envTagged.repoEnv r).waitAssets = .ok () := by
    intro r hrm
    refine ⟨rfl, ⟨"https://github.com/Truthdb/" ++ r, rfl, ?_⟩, rfl,
      ⟨"abc", rfl⟩, rfl⟩
    fin_cases hrm <;> decide
  exact ⟨rfl, rfl, rfl, by decide, by decide, hrepo,
    c7_resume_idempotent envTagged argsResume "v2.0.0" "2.0.0" "/r" rfl rfl
      rfl (by decide) (by decide) hrepo⟩

/-- Claim C1: in every run, no mutating operation (tag create, tag
push) occurs until the preflight phase has completed successfully
over all repositories in the declared order: whenever the trace
contains any mutation, the version parsed, the root resolved, the
full preflight succeeded, the whole trace extends the mutation-free
prefix consisting of the initial narration plus the complete
preflight trace, and every mutation lies in the remainder; and if
preflight fails on any repository, the run performs zero mutations. -/
theorem c1_no_mutation_before_preflight (env : Env) (args : ReleaseIsoArgs) :
    (((runRelease env args).2).filter isMutation ≠ [] →
      ∃ tg ver root snap ptr rest,
        parseAndNormalizeVersion args.version = Except.ok (tg, ver) ∧
        resolvedRoot env args = Except.ok root ∧
        preflightAll env args.owner args.resume tg root reposInOrder =
          (Except.ok snap, ptr) ∧
        (runRelease env args).2 =
          preTrace args tg ver root ++ ptr ++ rest ∧
        (preTrace args tg ver root ++ ptr).filter isMutation = []) ∧
    (∀ tg ver root e,
      parseAndNormalizeVersion args.version = Except.ok (tg, ver) →
      resolvedRoot env args = Except.ok root →
      (preflightAll env args.owner args.resume tg root reposInOrder).1 =
        Except.error e →
      ((runRelease env args).2).filter isMutation = []) := by
  constructor
  · intro hne
    cases hv : parseAndNormalizeVersion args.version with
    | error e =>
      rw [runRelease_version_error env args e hv] at hne
      exact absurd rfl hne
    | ok p =>
      obtain ⟨tg, ver⟩ := p
      cases hr : resolvedRoot env args with
      | error e =>
        rw [runRelease_root_error env args tg ver e hv hr] at hne
        exact absurd rfl hne
      | ok root =>
        rcases hpp : preflightAll env args.owner args.resume tg root
          reposInOrder with ⟨pres, ptr⟩
        have hptr : ptr.filter isMutation = [] := by
          have h0 := preflightAll_no_mut env args.owner args.resume tg root
            reposInOrder
          rw [hpp] at h0
          exact h0
        have hpre2 : (preTrace args tg ver root ++ ptr).filter isMutation =
            [] := by
          rw [List.filter_append, hptr]
          simp [preTrace, isMutation]
        cases pres with
        | error e =>
          rw [runRelease_preflight_error env args tg ver root e ptr hv hr
            hpp] at hne
          exact absurd hpre2 hne
        | ok snap =>
          cases htk : (!args.dryRun && env.token == "") with
          | true =>
            rw [runRelease_token_error env args tg ver root snap ptr hv hr
              hpp htk] at hne
            exact absurd hpre2 hne
          | false =>
            rcases hap : applyAll env args.dryRun (ghAvail env args) snap tg
              ver root reposInOrder with ⟨ares, atr⟩
            cases ares with
            | error e =>
              refine ⟨tg, ver, root, snap, ptr, atr, rfl, rfl, hpp, ?_, hpre2⟩
              rw [runRelease_apply_error env args tg ver root snap ptr atr e
                hv hr hpp htk hap]
            | ok u =>
              obtain rfl : u = () := rfl
              refine ⟨tg, ver, root, snap, ptr, atr ++ finalOps tg, rfl, rfl,
                hpp, ?_, hpre2⟩
              rw [runRelease_apply_ok env args tg ver root snap ptr atr hv hr
                hpp htk hap]
              simp [List.append_assoc]
  · intro tg ver root e hv hr hpe
    rcases hpp : preflightAll env args.owner args.resume tg root reposInOrder
      with ⟨pres, ptr⟩
    rw [hpp] at hpe
    simp only at hpe
    subst hpe
    rw [runRelease_preflight_error env args tg ver root e ptr hv hr hpp]
    rw [List.filter_append]
    have hptr : ptr.filter isMutation = [] := by
      have h0 := preflightAll_no_mut env args.owner args.resume tg root
        reposInOrder
      rw [hpp] at h0
      exact h0
    rw [hptr]
    simp [preTrace, isMutation]

/-- The good environment with every repository directory missing, so
preflight fails on the first repository. -/
def envBadDir : Env :=
  { envGood with isDir := fun _ => false }

theorem c1_no_mutation_before_preflight_witness :
    (((runRelease envGood argsLive).2).filter isMutation ≠ [] ∧
      (∃ tg ver root snap ptr rest,
        parseAndNormalizeVersion argsLive.version = Except.ok (tg, ver) ∧
        resolvedRoot envGood argsLive = Except.ok root ∧
        preflightAll envGood argsLive.owner argsLive.resume tg root
          reposInOrder = (Except.ok snap, ptr) ∧
        (runRelease envGood argsLive).2 =
          preTrace argsLive tg ver root ++ ptr ++ rest ∧
        (preTrace argsLive tg ver root ++ ptr).filter isMutation = [])) ∧
    ((runRelease envBadDir argsLive).2).filter isMutation = [] := by
  have h1 := (c1_no_mutation_before_preflight envGood argsLive).1 (by decide)
  have h2 := (c1_no_mutation_before_preflight envBadDir argsLive).2 "v2.0.0"
    "2.0.0" "/r" (RunError.missingRepoDir "/r/installer-kernel") (by decide)
    (by decide) (by decide)
  exact ⟨⟨by decide, h1⟩, h2⟩
